import Mathlib

/-!
# shadesmar: the robust reader/writer lock

A shallow embedding of `include/shadesmar/concurrency/robust_lock.h`.

Every public operation of `RobustLock` is embedded as a function on an explicit
lock state and is taken as one sequential step: no other process touches the
shared memory while a call runs, and the answers of the liveness probe are fixed
for the length of a call.  The two busy-wait loops (the try-acquire loop of
`lock` / `lock_sharable` and the registration loop
`while (!shared_owners.insert(getpid()));`) take a fuel argument; running out of
fuel (`none`) stands for a call that has not returned yet.

For the race between several recoverers the four acquiring methods are also given
step by step, one access to the shared memory at a time (`Racer.step`), and
interleaved by an arbitrary schedule (`Race.run`); run alone, the steps of a method
reach what the sequential method returns (`alone_agrees_with_sequential`).

Process ids are natural numbers (`getpid()` is passed in as `pid`), `0` being the
"no owner" / "empty slot" value of the source.  The slots of the registry are
`uint32_t` and the owner cell is a `__pid_t`; the conversions between the two are
the identity on real process ids and are not modelled.
-/

namespace shm.concurrent

/-! ## Collaborators that are not among the sources -/

/-- Modelled from the spec: the underlying non-robust reader/writer mutex
(`PthreadReadWriteLock`, declared in `rw_lock.h`, which is not among the sources).
The spec asks for "standard reader/writer semantics (one exclusive OR many shared)":
`writer` says whether the exclusive hold is taken, `readers` counts the shared holds
outstanding.  `unlocks` and `shared_unlocks` are history counters: how many times
`unlock()` and `unlock_sharable()` have been called on this mutex. -/
structure PthreadReadWriteLock where
  writer : Bool
  readers : Nat
  unlocks : Nat
  shared_unlocks : Nat
deriving DecidableEq

namespace PthreadReadWriteLock

/-- Modelled from the spec: non-blocking exclusive acquire of the missing `rw_lock.h`;
it succeeds exactly when nobody holds the mutex in either mode. -/
def try_lock (m : PthreadReadWriteLock) : Bool × PthreadReadWriteLock :=
  if m.writer = false ∧ m.readers = 0 then (true, { m with writer := true }) else (false, m)

/-- Modelled from the spec: non-blocking shared acquire of the missing `rw_lock.h`;
it succeeds exactly when the mutex is not exclusively held. -/
def try_lock_sharable (m : PthreadReadWriteLock) : Bool × PthreadReadWriteLock :=
  if m.writer = false then (true, { m with readers := m.readers + 1 }) else (false, m)

/-- Modelled from the spec: `unlock()` of the missing `rw_lock.h` gives up the
exclusive hold. -/
def unlock (m : PthreadReadWriteLock) : PthreadReadWriteLock :=
  { m with writer := false, unlocks := m.unlocks + 1 }

/-- Modelled from the spec: `unlock_sharable()` of the missing `rw_lock.h` gives up one
shared hold (none is left to give up when `readers` is already `0`). -/
def unlock_sharable (m : PthreadReadWriteLock) : PthreadReadWriteLock :=
  { m with readers := m.readers - 1, shared_unlocks := m.shared_unlocks + 1 }

end PthreadReadWriteLock

/-- Modelled from the spec: the owner registry `LocklessSet` (declared in
`lockless_set.h`, which is not among the sources): "a fixed-capacity array of atomic
process-id slots, `0` = empty".  The list is the member `__array`; its length is the
capacity and never changes. -/
abbrev LocklessSet := List Nat

namespace LocklessSet

/-- Modelled from the spec: `insert(pid)` of the missing `lockless_set.h`: "finds an
empty slot and atomically claims it via compare-and-swap from `0` to `pid`; returns
false if no slot was available, true on success".  Run alone, the slot found is the
first empty one. -/
def insert (elem : Nat) : LocklessSet → Bool × LocklessSet
  | [] => (false, [])
  | x :: xs =>
    if x = 0 then (true, elem :: xs)
    else ((insert elem xs).1, x :: (insert elem xs).2)

/-- Modelled from the spec: `remove(pid)` of the missing `lockless_set.h`: "atomically
compare-and-swaps a slot holding `pid` back to `0`; returns true iff it actually
cleared a slot".  Run alone, the slot is the first one that holds `pid`. -/
def remove (elem : Nat) : LocklessSet → Bool × LocklessSet
  | [] => (false, [])
  | x :: xs =>
    if x = elem then (true, 0 :: xs)
    else ((remove elem xs).1, x :: (remove elem xs).2)

/-- The registry a default-constructed lock starts with: `capacity` empty slots. -/
def empty (capacity : Nat) : LocklessSet := List.replicate capacity 0

/-- Number of occupied (non-zero) slots. -/
def occupied (set : LocklessSet) : Nat := (set.filter (fun x => x != 0)).length

end LocklessSet

/-- The loop `while (!shared_owners.insert(getpid()));` of `lock_sharable` and
`try_lock_sharable`: one `insert` per unit of fuel, `none` when the fuel runs out
before an `insert` has returned true. -/
def insert_loop (pid : Nat) : Nat → LocklessSet → Option LocklessSet
  | 0, _ => none
  | fuel + 1, set =>
    match LocklessSet.insert pid set with
    | (true, set') => some set'
    | (false, set') => insert_loop pid fuel set'

/-! ## The liveness helper -/

/-- The value of `errno` that `stat` leaves for a path that does not exist. -/
def ENOENT : Nat := 2

/-- What `stat("/proc/<pid>", &sts)` reports: its return value and, for a failed call,
the `errno` it leaves. -/
structure StatResult where
  ret : Int
  errno : Nat
deriving DecidableEq

/-- The OS process registry as `proc_dead` sees it: for each pid, the outcome of
`stat` on the path `/proc/<pid>`. -/
abbrev ProcFs := Nat → StatResult

/-- The function `proc_dead` of `robust_lock.h`, lines 40-47. -/
def proc_dead (stat : ProcFs) (proc : Nat) : Bool :=
  if proc = 0 then false
  else
    let sts := stat proc
    sts.ret == -1 && sts.errno == ENOENT

/-- `std::atomic::compare_exchange_strong(expected, desired)` on a cell: the outcome
and the new content of the cell. -/
def compare_exchange_strong (cell expected desired : Nat) : Bool × Nat :=
  if cell = expected then (true, desired) else (false, cell)

/-! ## RobustLock -/

/-- The data members of `class RobustLock` (`robust_lock.h`, lines 35-37). -/
structure RobustLock where
  mutex_ : PthreadReadWriteLock
  exclusive_owner : Nat
  shared_owners : LocklessSet
deriving DecidableEq

/-- What a returned blocking call did: the state it leaves, how many times the body of
its try-acquire loop ran, and how many of those runs reached `sleep_for`. -/
structure LockRun where
  state : RobustLock
  iterations : Nat
  sleeps : Nat
deriving DecidableEq

/-- Account for one more run of the loop body in front of the run `r`. -/
def LockRun.next (slept : Bool) (r : LockRun) : LockRun :=
  { r with iterations := r.iterations + 1, sleeps := r.sleeps + (if slept then 1 else 0) }

namespace RobustLock

/-- The default constructor `RobustLock::RobustLock() = default`: a free mutex with an
empty history, no recorded owner, and a registry of `capacity` empty slots. -/
def init (capacity : Nat) : RobustLock :=
  { mutex_ := { writer := false, readers := 0, unlocks := 0, shared_unlocks := 0 }
    exclusive_owner := 0
    shared_owners := LocklessSet.empty capacity }

/-- One pass of the body of the range-for in `prune_readers` (lines 157-165), at
slot `i`. -/
def prune_slot (stat : ProcFs) (i : Nat) (s : RobustLock) : RobustLock :=
  let shared_owner := s.shared_owners.getD i 0
  if shared_owner = 0 then s
  else if proc_dead stat shared_owner then
    match LocklessSet.remove shared_owner s.shared_owners with
    | (true, set) => { s with shared_owners := set, mutex_ := s.mutex_.unlock_sharable }
    | (false, set) => { s with shared_owners := set }
  else s

/-- The range-for of `prune_readers` from slot `i` on, with `n` slots left to visit. -/
def prune_from (stat : ProcFs) : Nat → Nat → RobustLock → RobustLock
  | _, 0, s => s
  | i, n + 1, s => prune_from stat (i + 1) n (prune_slot stat i s)

/-- The method `RobustLock::prune_readers` (lines 155-167). -/
def prune_readers (stat : ProcFs) (s : RobustLock) : RobustLock :=
  prune_from stat 0 s.shared_owners.length s

/-- The recovery block shared by `lock` and `try_lock` (lines 61-71 and 80-89), run
after a failed exclusive try-acquire.  The flag says whether the exclusive owner was
found dead and cleared by this caller (the branch that ends in `continue` in `lock`). -/
def recover_exclusive (stat : ProcFs) (s : RobustLock) : Bool × RobustLock :=
  if s.exclusive_owner ≠ 0 then
    let ex_proc := s.exclusive_owner
    if proc_dead stat ex_proc then
      match compare_exchange_strong s.exclusive_owner ex_proc 0 with
      | (true, cell) => (true, { s with exclusive_owner := cell, mutex_ := s.mutex_.unlock })
      | (false, cell) => (false, { s with exclusive_owner := cell })
    else (false, s)
  else (false, prune_readers stat s)

/-- The method `RobustLock::lock` (lines 59-76).  One unit of fuel per evaluation of
the loop condition `!mutex_.try_lock()`. -/
def lock (stat : ProcFs) (pid : Nat) : Nat → RobustLock → Option LockRun
  | 0, _ => none
  | fuel + 1, s =>
    match s.mutex_.try_lock with
    | (true, m) => some ⟨{ s with mutex_ := m, exclusive_owner := pid }, 0, 0⟩
    | (false, m) =>
      match recover_exclusive stat { s with mutex_ := m } with
      | (true, s') => (lock stat pid fuel s').map (LockRun.next false)
      | (false, s') => (lock stat pid fuel s').map (LockRun.next true)

/-- The lock as the `j`-th evaluation of the loop condition of `lock` finds it (counting
from `0`), if the loop gets that far: the state after `j` runs of the recovery block. -/
def after_recoveries (stat : ProcFs) : Nat → RobustLock → RobustLock
  | 0, s => s
  | j + 1, s => after_recoveries stat j (recover_exclusive stat s).2

/-- The method `RobustLock::try_lock` (lines 78-100). -/
def try_lock (stat : ProcFs) (pid : Nat) (s : RobustLock) : Bool × RobustLock :=
  match s.mutex_.try_lock with
  | (false, m) =>
    let s' := (recover_exclusive stat { s with mutex_ := m }).2
    match s'.mutex_.try_lock with
    | (true, m') => (true, { s' with mutex_ := m', exclusive_owner := pid })
    | (false, m') => (false, { s' with mutex_ := m' })
  | (true, m) => (true, { s with mutex_ := m, exclusive_owner := pid })

/-- The method `RobustLock::unlock` (lines 102-107). -/
def unlock (pid : Nat) (s : RobustLock) : RobustLock :=
  let current_pid := pid
  match compare_exchange_strong s.exclusive_owner current_pid 0 with
  | (true, cell) => { s with exclusive_owner := cell, mutex_ := s.mutex_.unlock }
  | (false, cell) => { s with exclusive_owner := cell }

/-- The recovery block shared by `lock_sharable` and `try_lock_sharable` (lines
111-119 and 128-136), run after a failed shared try-acquire. -/
def recover_sharable (stat : ProcFs) (s : RobustLock) : RobustLock :=
  if s.exclusive_owner ≠ 0 then
    let ex_proc := s.exclusive_owner
    if proc_dead stat ex_proc then
      match compare_exchange_strong s.exclusive_owner ex_proc 0 with
      | (true, _) => { s with exclusive_owner := 0, mutex_ := s.mutex_.unlock }
      | (false, cell) => { s with exclusive_owner := cell }
    else s
  else s

/-- The method `RobustLock::lock_sharable` (lines 109-124).  One unit of fuel per
evaluation of the loop condition `!mutex_.try_lock_sharable()`; what is left when
the acquire succeeds goes to the registration loop. -/
def lock_sharable (stat : ProcFs) (pid : Nat) : Nat → RobustLock → Option LockRun
  | 0, _ => none
  | fuel + 1, s =>
    match s.mutex_.try_lock_sharable with
    | (true, m) =>
      (insert_loop pid (fuel + 1) s.shared_owners).map
        (fun set => ⟨{ s with mutex_ := m, shared_owners := set }, 0, 0⟩)
    | (false, m) =>
      (lock_sharable stat pid fuel (recover_sharable stat { s with mutex_ := m })).map
        (LockRun.next true)

/-- The method `RobustLock::try_lock_sharable` (lines 126-147); the fuel is for the
registration loop. -/
def try_lock_sharable (stat : ProcFs) (pid : Nat) (fuel : Nat) (s : RobustLock) :
    Option (Bool × RobustLock) :=
  match s.mutex_.try_lock_sharable with
  | (false, m) =>
    let s' := recover_sharable stat { s with mutex_ := m }
    match s'.mutex_.try_lock_sharable with
    | (true, m') =>
      (insert_loop pid fuel s'.shared_owners).map
        (fun set => (true, { s' with mutex_ := m', shared_owners := set }))
    | (false, m') => some (false, { s' with mutex_ := m' })
  | (true, m) =>
    (insert_loop pid fuel s.shared_owners).map
      (fun set => (true, { s with mutex_ := m, shared_owners := set }))

/-- The method `RobustLock::unlock_sharable` (lines 149-153). -/
def unlock_sharable (pid : Nat) (s : RobustLock) : RobustLock :=
  match LocklessSet.remove pid s.shared_owners with
  | (true, set) => { s with shared_owners := set, mutex_ := s.mutex_.unlock_sharable }
  | (false, set) => { s with shared_owners := set }

/-- The destructor `RobustLock::~RobustLock` (line 57). -/
def destroy (s : RobustLock) : RobustLock :=
  { s with exclusive_owner := 0 }

end RobustLock

/-! ## Sequences of calls and reachable states -/

/-- The outcome of `n` consecutive `try_lock()` calls by the process `pid`, nothing else
happening in between: for each call, its return value and the state it leaves. -/
def try_lock_calls (stat : ProcFs) (pid : Nat) : Nat → RobustLock → List (Bool × RobustLock)
  | 0, _ => []
  | n + 1, s =>
    RobustLock.try_lock stat pid s ::
      try_lock_calls stat pid n (RobustLock.try_lock stat pid s).2

/-- One `lock_sharable()` call by each process of the list, in that order; `none` when
one of the calls does not return with the fuel given to it. -/
def lock_sharable_each (stat : ProcFs) (fuel : Nat) : List Nat → RobustLock → Option RobustLock
  | [], s => some s
  | pid :: pids, s =>
    match RobustLock.lock_sharable stat pid fuel s with
    | some r => lock_sharable_each stat fuel pids r.state
    | none => none

/-- One `unlock_sharable()` call by each process of the list, in that order. -/
def unlock_sharable_each : List Nat → RobustLock → RobustLock
  | [], s => s
  | pid :: pids, s => unlock_sharable_each pids (RobustLock.unlock_sharable pid s)

/-- The three facts that tie the members of a lock together when every operation runs
to its end: a recorded exclusive owner means the mutex is exclusively held, an exclusive
hold leaves no shared hold, and the shared holds are as many as the occupied registry
slots. -/
def RobustLock.consistent (s : RobustLock) : Prop :=
  (s.exclusive_owner ≠ 0 → s.mutex_.writer = true) ∧
  (s.mutex_.writer = true → s.mutex_.readers = 0) ∧
  s.mutex_.readers = s.shared_owners.occupied

/-- The states a lock with `capacity` registry slots can be in, together with the
process registry of the OS at that moment: it starts as a default-constructed lock;
processes may die at any time (a pid that `proc_dead` reports dead stays dead); and
any live process, calling with its own non-zero pid, may run one of the six public
operations to its end. -/
inductive Reachable (capacity : Nat) : ProcFs → RobustLock → Prop
  | init (stat : ProcFs) : Reachable capacity stat (RobustLock.init capacity)
  | death {stat stat' : ProcFs} {s : RobustLock} :
      Reachable capacity stat s →
      (∀ p, proc_dead stat p = true → proc_dead stat' p = true) →
      Reachable capacity stat' s
  | lock {stat : ProcFs} {s : RobustLock} {pid fuel : Nat} {r : LockRun} :
      Reachable capacity stat s → pid ≠ 0 → proc_dead stat pid = false →
      RobustLock.lock stat pid fuel s = some r →
      Reachable capacity stat r.state
  | try_lock {stat : ProcFs} {s : RobustLock} {pid : Nat} :
      Reachable capacity stat s → pid ≠ 0 → proc_dead stat pid = false →
      Reachable capacity stat (RobustLock.try_lock stat pid s).2
  | unlock {stat : ProcFs} {s : RobustLock} {pid : Nat} :
      Reachable capacity stat s → pid ≠ 0 → proc_dead stat pid = false →
      Reachable capacity stat (RobustLock.unlock pid s)
  | lock_sharable {stat : ProcFs} {s : RobustLock} {pid fuel : Nat} {r : LockRun} :
      Reachable capacity stat s → pid ≠ 0 → proc_dead stat pid = false →
      RobustLock.lock_sharable stat pid fuel s = some r →
      Reachable capacity stat r.state
  | try_lock_sharable {stat : ProcFs} {s s' : RobustLock} {pid fuel : Nat} {b : Bool} :
      Reachable capacity stat s → pid ≠ 0 → proc_dead stat pid = false →
      RobustLock.try_lock_sharable stat pid fuel s = some (b, s') →
      Reachable capacity stat s'
  | unlock_sharable {stat : ProcFs} {s : RobustLock} {pid : Nat} :
      Reachable capacity stat s → pid ≠ 0 → proc_dead stat pid = false →
      Reachable capacity stat (RobustLock.unlock_sharable pid s)

/-- The states of a lock with `capacity` registry slots when nothing is assumed about
the liveness probe: from a default-constructed lock, any process, calling with its
non-zero pid, runs one of the six public operations to its end, and the probe may
answer anything at each call (processes die between calls, a pid is taken again by a
new process, the probe is wrong about the caller). -/
inductive ReachableAnyProbe (capacity : Nat) : RobustLock → Prop
  | init : ReachableAnyProbe capacity (RobustLock.init capacity)
  | lock {s : RobustLock} {pid fuel : Nat} {r : LockRun} (stat : ProcFs) :
      ReachableAnyProbe capacity s → pid ≠ 0 →
      RobustLock.lock stat pid fuel s = some r →
      ReachableAnyProbe capacity r.state
  | try_lock {s : RobustLock} {pid : Nat} (stat : ProcFs) :
      ReachableAnyProbe capacity s → pid ≠ 0 →
      ReachableAnyProbe capacity (RobustLock.try_lock stat pid s).2
  | unlock {s : RobustLock} {pid : Nat} :
      ReachableAnyProbe capacity s → pid ≠ 0 →
      ReachableAnyProbe capacity (RobustLock.unlock pid s)
  | lock_sharable {s : RobustLock} {pid fuel : Nat} {r : LockRun} (stat : ProcFs) :
      ReachableAnyProbe capacity s → pid ≠ 0 →
      RobustLock.lock_sharable stat pid fuel s = some r →
      ReachableAnyProbe capacity r.state
  | try_lock_sharable {s s' : RobustLock} {pid fuel : Nat} {b : Bool} (stat : ProcFs) :
      ReachableAnyProbe capacity s → pid ≠ 0 →
      RobustLock.try_lock_sharable stat pid fuel s = some (b, s') →
      ReachableAnyProbe capacity s'
  | unlock_sharable {s : RobustLock} {pid : Nat} :
      ReachableAnyProbe capacity s → pid ≠ 0 →
      ReachableAnyProbe capacity (RobustLock.unlock_sharable pid s)

/-- The path that `proc_dead` probes (line 44): `"/proc/" + std::to_string(proc)`. -/
def pid_path (proc : Nat) : String := "/proc/" ++ toString proc

/-- The process registry that `proc_dead` sees when `stat(path, &sts)` behaves as
`stat_call` on the file system. -/
def ProcFs.of_stat (stat_call : String → StatResult) : ProcFs :=
  fun proc => stat_call (pid_path proc)

/-! ## Interleaved execution of the acquiring methods

For the recovery race the four acquiring methods are cut into their accesses to the
shared memory: one step of a process is one call on the underlying mutex, one load,
store or compare-and-swap of `exclusive_owner`, one load of a registry slot, or one
`insert` / `remove` on the registry (atomic, as the spec has them), together with the
local computation that follows it up to the next access.  The answers of the liveness
probe are fixed during a race. -/

/-- Which of the four acquiring methods a process is running. -/
inductive Method
  | lock
  | try_lock
  | lock_sharable
  | try_lock_sharable
deriving DecidableEq

/-- Whether the method acquires the mutex in exclusive mode. -/
def Method.exclusive : Method → Bool
  | .lock => true
  | .try_lock => true
  | .lock_sharable => false
  | .try_lock_sharable => false

/-- Where a process stands in its call: the access to the shared memory it makes next. -/
inductive Pc
  /-- The try-acquire `mutex_.try_lock()` or `mutex_.try_lock_sharable()`; `final` marks
  the second, last one of `try_lock` (line 90) and `try_lock_sharable` (line 137). -/
  | acquire (final : Bool)
  /-- The test `exclusive_owner != 0` (lines 61, 80, 111, 128). -/
  | check_owner
  /-- The snapshot `ex_proc = exclusive_owner.load()`, followed by `proc_dead(ex_proc)`. -/
  | load_owner
  /-- The call `exclusive_owner.compare_exchange_strong(ex_proc, 0)`. -/
  | cas (ex_proc : Nat)
  /-- The store `exclusive_owner = 0` of the two shared methods (lines 115, 132). -/
  | store_zero
  /-- The forced release `mutex_.unlock()` (lines 65, 84, 116, 133). -/
  | force_unlock
  /-- In `prune_readers`: the load of slot `i`, followed by the tests on its value; at
  `i` equal to the capacity the range-for is over. -/
  | prune_load (i : Nat)
  /-- In `prune_readers`: the call `shared_owners.remove(shared_owner)`, in the pass for
  slot `i`. -/
  | prune_remove (shared_owner i : Nat)
  /-- In `prune_readers`: the release `mutex_.unlock_sharable()`, in the pass for slot
  `i`. -/
  | prune_unlock (i : Nat)
  /-- The call `sleep_for` at the end of the loop body of `lock` and `lock_sharable`. -/
  | sleep
  /-- The store `exclusive_owner = getpid()` (lines 75, 91, 97). -/
  | record_owner
  /-- One turn of `while (!shared_owners.insert(getpid()));` (lines 123, 138, 144). -/
  | register
  /-- The call has returned (`result` is `true` for the two `void` methods). -/
  | returned (result : Bool)
deriving DecidableEq

/-- Where a process goes when its recovery block is over without a forced release, or,
in the two shared methods and in `try_lock`, after it: to the sleep of the blocking
methods, to the final try-acquire of the non-blocking ones. -/
def Method.after_recovery : Method → Pc
  | .lock => .sleep
  | .try_lock => .acquire true
  | .lock_sharable => .sleep
  | .try_lock_sharable => .acquire true

/-- Where a process goes after `mutex_.unlock()`: `lock` has `continue` there (line 66). -/
def Method.after_force_unlock : Method → Pc
  | .lock => .acquire false
  | m => m.after_recovery

/-- A process inside one of the four acquiring methods: the method, its pid, where it
stands, and two history counters: how many compare-and-swaps of `exclusive_owner` it has
won, and how many releases (`mutex_.unlock()` or `mutex_.unlock_sharable()`) it has
made. -/
structure Racer where
  method : Method
  pid : Nat
  pc : Pc
  cas_wins : Nat
  releases : Nat
deriving DecidableEq

/-- One step of the process `p` on the shared lock `mem`. -/
def Racer.step (stat : ProcFs) (mem : RobustLock) (p : Racer) : RobustLock × Racer :=
  match p.pc with
  | .acquire final =>
    match p.method.exclusive with
    | true =>
      match mem.mutex_.try_lock with
      | (true, m) => ({ mem with mutex_ := m }, { p with pc := .record_owner })
      | (false, m) =>
        ({ mem with mutex_ := m },
          { p with pc := if final then .returned false else .check_owner })
    | false =>
      match mem.mutex_.try_lock_sharable with
      | (true, m) => ({ mem with mutex_ := m }, { p with pc := .register })
      | (false, m) =>
        ({ mem with mutex_ := m },
          { p with pc := if final then .returned false else .check_owner })
  | .check_owner =>
    if mem.exclusive_owner ≠ 0 then (mem, { p with pc := .load_owner })
    else if p.method.exclusive then (mem, { p with pc := .prune_load 0 })
    else (mem, { p with pc := p.method.after_recovery })
  | .load_owner =>
    let ex_proc := mem.exclusive_owner
    if proc_dead stat ex_proc then (mem, { p with pc := .cas ex_proc })
    else (mem, { p with pc := p.method.after_recovery })
  | .cas ex_proc =>
    match compare_exchange_strong mem.exclusive_owner ex_proc 0 with
    | (true, cell) =>
      ({ mem with exclusive_owner := cell },
        { p with
          pc := if p.method.exclusive then .force_unlock else .store_zero
          cas_wins := p.cas_wins + 1 })
    | (false, cell) =>
      ({ mem with exclusive_owner := cell }, { p with pc := p.method.after_recovery })
  | .store_zero => ({ mem with exclusive_owner := 0 }, { p with pc := .force_unlock })
  | .force_unlock =>
    ({ mem with mutex_ := mem.mutex_.unlock },
      { p with pc := p.method.after_force_unlock, releases := p.releases + 1 })
  | .prune_load i =>
    if i < mem.shared_owners.length then
      let shared_owner := mem.shared_owners.getD i 0
      if shared_owner = 0 then (mem, { p with pc := .prune_load (i + 1) })
      else if proc_dead stat shared_owner then
        (mem, { p with pc := .prune_remove shared_owner i })
      else (mem, { p with pc := .prune_load (i + 1) })
    else (mem, { p with pc := p.method.after_recovery })
  | .prune_remove shared_owner i =>
    match LocklessSet.remove shared_owner mem.shared_owners with
    | (true, set) => ({ mem with shared_owners := set }, { p with pc := .prune_unlock i })
    | (false, set) => ({ mem with shared_owners := set }, { p with pc := .prune_load (i + 1) })
  | .prune_unlock i =>
    ({ mem with mutex_ := mem.mutex_.unlock_sharable },
      { p with pc := .prune_load (i + 1), releases := p.releases + 1 })
  | .sleep => (mem, { p with pc := .acquire false })
  | .record_owner => ({ mem with exclusive_owner := p.pid }, { p with pc := .returned true })
  | .register =>
    match LocklessSet.insert p.pid mem.shared_owners with
    | (true, set) => ({ mem with shared_owners := set }, { p with pc := .returned true })
    | (false, set) => ({ mem with shared_owners := set }, { p with pc := .register })
  | .returned _ => (mem, p)

/-- The shared lock and the processes that are inside a call on it. -/
structure Race where
  mem : RobustLock
  procs : List Racer
deriving DecidableEq

namespace Race

/-- The process number `i` makes its next step (nothing happens when there is no such
process, or when it has returned). -/
def step (stat : ProcFs) (c : Race) (i : Nat) : Race :=
  match c.procs[i]? with
  | none => c
  | some p =>
    { mem := (Racer.step stat c.mem p).1
      procs := c.procs.set i (Racer.step stat c.mem p).2 }

/-- An interleaving: the processes step in the order given by `schedule`. -/
def run (stat : ProcFs) : List Nat → Race → Race
  | [], c => c
  | i :: schedule, c => run stat schedule (step stat c i)

/-- A process running alone: `n` steps of the single process `p` on the lock `mem`. -/
def alone (stat : ProcFs) (n : Nat) (mem : RobustLock) (p : Racer) : Race :=
  run stat (List.replicate n 0) ⟨mem, [p]⟩

end Race

/-- Running alone in the method `method` with pid `pid`, a process that stands at `pc`
on the lock `mem` gets, after some number of steps, to `pc'` with the lock being `mem'`
(whatever its history counters were, and whatever they have become). -/
def Racer.reaches (stat : ProcFs) (method : Method) (pid : Nat)
    (mem : RobustLock) (pc : Pc) (mem' : RobustLock) (pc' : Pc) : Prop :=
  ∀ w r, ∃ n w' r',
    Race.alone stat n mem ⟨method, pid, pc, w, r⟩ = ⟨mem', [⟨method, pid, pc', w', r'⟩]⟩

theorem proc_dead_zero (stat : ProcFs) : proc_dead stat 0 = false := by
  simp [proc_dead]

theorem remove_first (elem : Nat) (rest : List Nat) :
    ∀ pre : List Nat, elem ∉ pre →
      LocklessSet.remove elem (pre ++ elem :: rest) = (true, pre ++ 0 :: rest) := by
  intro pre
  induction pre with
  | nil => intro _; simp [LocklessSet.remove]
  | cons x xs ih =>
    intro h
    have hx : x ≠ elem := fun e => h (by simp [e])
    have hxs : elem ∉ xs := fun e => h (by simp [e])
    simp [LocklessSet.remove, hx, ih hxs]

theorem getD_at_length (pre rest : List Nat) (v : Nat) :
    (pre ++ v :: rest).getD pre.length 0 = v := by
  induction pre with
  | nil => rfl
  | cons x xs ih => simpa using ih

theorem all_alive_snoc (stat : ProcFs) (pre : List Nat) (v : Nat)
    (hpre : ∀ x ∈ pre, proc_dead stat x = false) (hv : proc_dead stat v = false) :
    ∀ x ∈ pre ++ [v], proc_dead stat x = false := by
  intro x hx
  rcases List.mem_append.mp hx with h | h
  · exact hpre x h
  · simp at h; subst h; exact hv

/-- The loop of `prune_readers`, once it has passed the slots `pre` (none of which
holds a dead pid any more), clears every dead pid of the remaining slots `rest` and
calls `unlock_sharable` on the mutex once for each of them. -/
theorem prune_from_append (stat : ProcFs) (owner : Nat) :
    ∀ (rest pre : List Nat) (m : PthreadReadWriteLock),
      (∀ x ∈ pre, proc_dead stat x = false) →
      RobustLock.prune_from stat pre.length rest.length ⟨m, owner, pre ++ rest⟩ =
        ⟨{ m with
            readers := m.readers - (rest.filter (proc_dead stat)).length
            shared_unlocks := m.shared_unlocks + (rest.filter (proc_dead stat)).length },
          owner, pre ++ rest.map (fun v => if proc_dead stat v then 0 else v)⟩ := by
  intro rest
  induction rest with
  | nil => intro pre m _; simp [RobustLock.prune_from]
  | cons v rest ih =>
    intro pre m hpre
    have hlen : (pre ++ [0]).length = pre.length + 1 := by simp
    have hlenv : (pre ++ [v]).length = pre.length + 1 := by simp
    simp only [List.length_cons, RobustLock.prune_from, RobustLock.prune_slot, getD_at_length]
    by_cases hv : v = 0
    · subst hv
      have := ih (pre ++ [0]) m (all_alive_snoc stat pre 0 hpre (proc_dead_zero stat))
      rw [hlen] at this
      simpa [proc_dead_zero] using this
    · by_cases hd : proc_dead stat v = true
      · have hnot : v ∉ pre := fun hmem => by
          have := hpre v hmem
          rw [hd] at this
          exact Bool.noConfusion this
        have := ih (pre ++ [0]) m.unlock_sharable
          (all_alive_snoc stat pre 0 hpre (proc_dead_zero stat))
        rw [hlen] at this
        simp only [if_neg hv, hd, if_true, remove_first v rest pre hnot]
        simp only [List.append_assoc, List.singleton_append] at this
        rw [this]
        simp [PthreadReadWriteLock.unlock_sharable, hd, List.filter_cons]
        omega
      · have hd' : proc_dead stat v = false := by simpa using hd
        have := ih (pre ++ [v]) m (all_alive_snoc stat pre v hpre hd')
        rw [hlenv] at this
        simp only [if_neg hv, hd']
        simp only [List.append_assoc, List.singleton_append] at this
        simp [this, hd', List.filter_cons]

/-- What `prune_readers` does to a lock, in closed form. -/
theorem prune_readers_eq (stat : ProcFs) (s : RobustLock) :
    RobustLock.prune_readers stat s =
      ⟨{ s.mutex_ with
          readers := s.mutex_.readers - (s.shared_owners.filter (proc_dead stat)).length
          shared_unlocks :=
            s.mutex_.shared_unlocks + (s.shared_owners.filter (proc_dead stat)).length },
        s.exclusive_owner,
        s.shared_owners.map (fun v => if proc_dead stat v then 0 else v)⟩ := by
  have := prune_from_append stat s.exclusive_owner s.shared_owners [] s.mutex_ (by simp)
  simpa [RobustLock.prune_readers] using this

/-! ## Exclusive mode -/

/-- C1 (exclusive crash recovery).  The mutex is exclusively held, the recorded owner
`P` is dead and the registry is empty; `Q` is another process.  Then `lock()` by `Q`
returns as soon as it is given fuel for two try-acquires: the loop body runs once (one
recovery, well within 50 poll iterations) without reaching the sleep, the mutex has
been force-unlocked exactly once, and on return the mutex is exclusively held and
`exclusive_owner == Q`. -/
theorem lock_recovers_dead_owner (stat : ProcFs) (P Q : Nat) (s : RobustLock) (fuel : Nat)
    (hP : P ≠ 0) (hQ : Q ≠ 0) (hPQ : P ≠ Q)
    (hw : s.mutex_.writer = true) (hr : s.mutex_.readers = 0)
    (howner : s.exclusive_owner = P) (hreg : s.shared_owners.occupied = 0)
    (hdead : proc_dead stat P = true) (hfuel : 2 ≤ fuel) :
    ∃ r, RobustLock.lock stat Q fuel s = some r ∧
      r.iterations = 1 ∧ r.iterations ≤ 50 ∧ r.sleeps = 0 ∧
      r.state.exclusive_owner = Q ∧
      r.state.mutex_.writer = true ∧ r.state.mutex_.readers = 0 ∧
      r.state.mutex_.unlocks = s.mutex_.unlocks + 1 ∧
      r.state.shared_owners = s.shared_owners := by
  obtain ⟨n, rfl⟩ : ∃ n, fuel = n + 2 := ⟨fuel - 2, by omega⟩
  obtain ⟨m, o, reg⟩ := s
  obtain ⟨w, rd, u, su⟩ := m
  simp only at hw hr howner
  subst hw hr howner
  simp [RobustLock.lock, RobustLock.recover_exclusive, PthreadReadWriteLock.try_lock,
    PthreadReadWriteLock.unlock, compare_exchange_strong, hP, hdead, LockRun.next]

/-- C1, the scenario of the spec: pid 100 holds the exclusive lock and is dead, pid 200
calls `lock()` with room for 50 try-acquires. -/
theorem lock_recovers_dead_owner_witness :
    ∃ r, RobustLock.lock (fun p => if p = 100 then ⟨-1, ENOENT⟩ else ⟨0, 0⟩) 200 50
        ⟨⟨true, 0, 0, 0⟩, 100, [0, 0, 0, 0]⟩ = some r ∧
      r.iterations = 1 ∧ r.iterations ≤ 50 ∧ r.sleeps = 0 ∧
      r.state.exclusive_owner = 200 ∧
      r.state.mutex_.writer = true ∧ r.state.mutex_.readers = 0 ∧
      r.state.mutex_.unlocks = 0 + 1 ∧
      r.state.shared_owners = [0, 0, 0, 0] :=
  lock_recovers_dead_owner (fun p => if p = 100 then ⟨-1, ENOENT⟩ else ⟨0, 0⟩) 100 200
    ⟨⟨true, 0, 0, 0⟩, 100, [0, 0, 0, 0]⟩ 50
    (by decide) (by decide) (by decide) rfl rfl rfl (by decide) (by decide) (by decide)

theorem filter_dead_eq_occupied (stat : ProcFs) (set : LocklessSet)
    (hdead : ∀ x ∈ set, x ≠ 0 → proc_dead stat x = true) :
    (set.filter (proc_dead stat)).length = set.occupied := by
  unfold LocklessSet.occupied
  congr 1
  apply List.filter_congr
  intro x hx
  by_cases h0 : x = 0
  · subst h0; simp [proc_dead_zero]
  · simp [h0, hdead x hx h0]

theorem map_clear_dead_eq_empty (stat : ProcFs) (set : LocklessSet)
    (hdead : ∀ x ∈ set, x ≠ 0 → proc_dead stat x = true) :
    set.map (fun v => if proc_dead stat v then 0 else v) = LocklessSet.empty set.length := by
  unfold LocklessSet.empty
  induction set with
  | nil => rfl
  | cons x xs ih =>
    have hxs : ∀ y ∈ xs, y ≠ 0 → proc_dead stat y = true :=
      fun y hy => hdead y (List.mem_cons_of_mem x hy)
    by_cases h0 : x = 0
    · subst h0; simp [List.replicate_succ, proc_dead_zero, ih hxs]
    · simp [List.replicate_succ, hdead x (List.mem_cons_self x xs) h0, ih hxs]

/-- C2 (shared crash recovery).  No exclusive owner is recorded, the mutex is held in
shared mode only, every shared hold is backed by one registry entry and every registered
pid is dead.  Then `prune_readers` clears every slot and gives back one shared hold for
each occupied slot, and `lock()` by a live process `Q` returns once it is given fuel
for two try-acquires: the loop body runs once (the prune, then the sleep), and on return
the mutex is exclusively held with no shared hold left, `exclusive_owner == Q` and the
registry is empty. -/
theorem lock_prunes_dead_readers (stat : ProcFs) (Q : Nat) (s : RobustLock) (fuel : Nat)
    (hQ : Q ≠ 0) (hlive : proc_dead stat Q = false)
    (howner : s.exclusive_owner = 0)
    (hw : s.mutex_.writer = false) (hheld : 0 < s.mutex_.readers)
    (hbacked : s.mutex_.readers = s.shared_owners.occupied)
    (hdead : ∀ x ∈ s.shared_owners, x ≠ 0 → proc_dead stat x = true)
    (hfuel : 2 ≤ fuel) :
    (RobustLock.prune_readers stat s).shared_owners = LocklessSet.empty s.shared_owners.length ∧
    (RobustLock.prune_readers stat s).mutex_.readers = 0 ∧
    (RobustLock.prune_readers stat s).mutex_.shared_unlocks =
      s.mutex_.shared_unlocks + s.shared_owners.occupied ∧
    ∃ r, RobustLock.lock stat Q fuel s = some r ∧
      r.iterations = 1 ∧ r.sleeps = 1 ∧
      r.state.exclusive_owner = Q ∧
      r.state.mutex_.writer = true ∧ r.state.mutex_.readers = 0 ∧
      r.state.mutex_.unlocks = s.mutex_.unlocks ∧
      r.state.mutex_.shared_unlocks = s.mutex_.shared_unlocks + s.shared_owners.occupied ∧
      r.state.shared_owners = LocklessSet.empty s.shared_owners.length := by
  obtain ⟨n, rfl⟩ : ∃ n, fuel = n + 2 := ⟨fuel - 2, by omega⟩
  have hcount := filter_dead_eq_occupied stat s.shared_owners hdead
  have hmap := map_clear_dead_eq_empty stat s.shared_owners hdead
  have hprune := prune_readers_eq stat s
  rw [hcount, hmap] at hprune
  obtain ⟨m, o, reg⟩ := s
  obtain ⟨w, rd, u, su⟩ := m
  simp only at hw hheld hbacked howner hprune
  subst hw howner hbacked
  have hrd : ¬ reg.occupied = 0 := by omega
  refine ⟨by rw [hprune], by rw [hprune]; simp, by rw [hprune], ?_⟩
  simp [RobustLock.lock, RobustLock.recover_exclusive, PthreadReadWriteLock.try_lock,
    hrd, hprune, LockRun.next]

/-- C2 on a concrete lock: two dead readers (pids 100 and 101) hold the mutex in shared
mode, pid 200 calls `lock()`. -/
theorem lock_prunes_dead_readers_witness :
    (RobustLock.prune_readers (fun p => if p = 200 then ⟨0, 0⟩ else ⟨-1, ENOENT⟩)
      ⟨⟨false, 2, 0, 0⟩, 0, [100, 0, 101]⟩).shared_owners = LocklessSet.empty 3 ∧
    (RobustLock.prune_readers (fun p => if p = 200 then ⟨0, 0⟩ else ⟨-1, ENOENT⟩)
      ⟨⟨false, 2, 0, 0⟩, 0, [100, 0, 101]⟩).mutex_.readers = 0 ∧
    (RobustLock.prune_readers (fun p => if p = 200 then ⟨0, 0⟩ else ⟨-1, ENOENT⟩)
      ⟨⟨false, 2, 0, 0⟩, 0, [100, 0, 101]⟩).mutex_.shared_unlocks =
        0 + LocklessSet.occupied [100, 0, 101] ∧
    ∃ r, RobustLock.lock (fun p => if p = 200 then ⟨0, 0⟩ else ⟨-1, ENOENT⟩) 200 2
        ⟨⟨false, 2, 0, 0⟩, 0, [100, 0, 101]⟩ = some r ∧
      r.iterations = 1 ∧ r.sleeps = 1 ∧
      r.state.exclusive_owner = 200 ∧
      r.state.mutex_.writer = true ∧ r.state.mutex_.readers = 0 ∧
      r.state.mutex_.unlocks = 0 ∧
      r.state.mutex_.shared_unlocks = 0 + LocklessSet.occupied [100, 0, 101] ∧
      r.state.shared_owners = LocklessSet.empty 3 :=
  lock_prunes_dead_readers (fun p => if p = 200 then ⟨0, 0⟩ else ⟨-1, ENOENT⟩) 200
    ⟨⟨false, 2, 0, 0⟩, 0, [100, 0, 101]⟩ 2
    (by decide) (by decide) rfl rfl (by decide) (by decide) (by decide) (by decide)

theorem remove_of_not_mem (elem : Nat) :
    ∀ set : LocklessSet, elem ∉ set → LocklessSet.remove elem set = (false, set) := by
  intro set
  induction set with
  | nil => intro _; rfl
  | cons x xs ih =>
    intro h
    have hx : x ≠ elem := fun e => h (by simp [e])
    have hxs : elem ∉ xs := fun e => h (by simp [e])
    simp [LocklessSet.remove, hx, ih hxs]

theorem first_occurrence (elem : Nat) :
    ∀ set : LocklessSet, elem ∈ set → ∃ pre rest, elem ∉ pre ∧ set = pre ++ elem :: rest := by
  intro set
  induction set with
  | nil => intro h; simp at h
  | cons x xs ih =>
    intro h
    by_cases hx : x = elem
    · exact ⟨[], xs, by simp, by simp [hx]⟩
    · have hxs : elem ∈ xs := by
        rcases List.mem_cons.mp h with h | h
        · exact absurd h.symm hx
        · exact h
      obtain ⟨pre, rest, hpre, hset⟩ := ih hxs
      refine ⟨x :: pre, rest, ?_, by simp [hset]⟩
      intro hmem
      rcases List.mem_cons.mp hmem with h | h
      · exact hx h.symm
      · exact hpre h

theorem occupied_append (a b : LocklessSet) :
    LocklessSet.occupied (a ++ b) = LocklessSet.occupied a + LocklessSet.occupied b := by
  simp [LocklessSet.occupied]

theorem occupied_cons (x : Nat) (xs : LocklessSet) :
    LocklessSet.occupied (x :: xs) = (if x = 0 then 0 else 1) + LocklessSet.occupied xs := by
  by_cases h : x = 0
  · simp [LocklessSet.occupied, h]
  · simp [LocklessSet.occupied, h, List.filter_cons]; omega

/-- C3 (no double release).  `unlock()` by `P` calls `unlock()` on the underlying
mutex exactly when `exclusive_owner == P` at the call; in that case the mutex is
released and `exclusive_owner` becomes `0`, the registry staying as it is; in every
other state (owner `0`, or another pid that has recovered the lock of `P`) the call
changes neither the mutex, nor `exclusive_owner`, nor the registry. -/
theorem unlock_releases_iff_owner (P : Nat) (s : RobustLock) :
    ((RobustLock.unlock P s).mutex_.unlocks = s.mutex_.unlocks + 1 ↔ s.exclusive_owner = P) ∧
    (s.exclusive_owner = P →
      RobustLock.unlock P s = ⟨s.mutex_.unlock, 0, s.shared_owners⟩ ∧
      (RobustLock.unlock P s).mutex_.writer = false) ∧
    (s.exclusive_owner ≠ P → RobustLock.unlock P s = s) := by
  by_cases h : s.exclusive_owner = P
  · simp [RobustLock.unlock, compare_exchange_strong, h, PthreadReadWriteLock.unlock]
  · simp [RobustLock.unlock, compare_exchange_strong, h]

/-- C4 (one registry removal, one release).  `unlock_sharable()` by `P`: when `P` is in
`shared_owners`, the first slot holding `P` is cleared and no other slot changes (one
occupied slot fewer, one entry `P` fewer), `unlock_sharable()` is called once on the
underlying mutex (one shared hold fewer) and `exclusive_owner` is untouched; when `P` is
not in `shared_owners`, the whole lock is left as it is. -/
theorem unlock_sharable_pairs_removal_with_release (P : Nat) (s : RobustLock) (hP : P ≠ 0) :
    (P ∈ s.shared_owners →
      ∃ pre rest, P ∉ pre ∧ s.shared_owners = pre ++ P :: rest ∧
        RobustLock.unlock_sharable P s =
          ⟨s.mutex_.unlock_sharable, s.exclusive_owner, pre ++ 0 :: rest⟩ ∧
        (RobustLock.unlock_sharable P s).shared_owners.occupied + 1 =
          s.shared_owners.occupied ∧
        (RobustLock.unlock_sharable P s).shared_owners.count P + 1 =
          s.shared_owners.count P ∧
        (RobustLock.unlock_sharable P s).mutex_.readers = s.mutex_.readers - 1 ∧
        (RobustLock.unlock_sharable P s).mutex_.shared_unlocks =
          s.mutex_.shared_unlocks + 1 ∧
        (RobustLock.unlock_sharable P s).mutex_.writer = s.mutex_.writer ∧
        (RobustLock.unlock_sharable P s).mutex_.unlocks = s.mutex_.unlocks) ∧
    (P ∉ s.shared_owners → RobustLock.unlock_sharable P s = s) := by
  constructor
  · intro hmem
    obtain ⟨pre, rest, hpre, hset⟩ := first_occurrence P s.shared_owners hmem
    have hrem := remove_first P rest pre hpre
    have hun : RobustLock.unlock_sharable P s =
        ⟨s.mutex_.unlock_sharable, s.exclusive_owner, pre ++ 0 :: rest⟩ := by
      simp [RobustLock.unlock_sharable, hset, hrem]
    refine ⟨pre, rest, hpre, hset, hun, ?_, ?_, ?_, ?_, ?_, ?_⟩
    · rw [hun, hset]
      simp [occupied_append, occupied_cons, hP]
      omega
    · rw [hun, hset]
      simp [List.count_cons, Ne.symm hP]
      omega
    · rw [hun]; rfl
    · rw [hun]; rfl
    · rw [hun]; rfl
    · rw [hun]; rfl
  · intro hmem
    simp [RobustLock.unlock_sharable, remove_of_not_mem P s.shared_owners hmem]

/-- C4 on a concrete lock: pid 9 is registered twice among three readers and calls
`unlock_sharable()` once. -/
theorem unlock_sharable_pairs_removal_with_release_witness :
    ∃ pre rest, 9 ∉ pre ∧ [5, 9, 9] = pre ++ 9 :: rest ∧
      RobustLock.unlock_sharable 9 ⟨⟨false, 3, 0, 0⟩, 0, [5, 9, 9]⟩ =
        ⟨PthreadReadWriteLock.unlock_sharable ⟨false, 3, 0, 0⟩, 0, pre ++ 0 :: rest⟩ ∧
      (RobustLock.unlock_sharable 9
        ⟨⟨false, 3, 0, 0⟩, 0, [5, 9, 9]⟩).shared_owners.occupied + 1 =
        LocklessSet.occupied [5, 9, 9] ∧
      (RobustLock.unlock_sharable 9
        ⟨⟨false, 3, 0, 0⟩, 0, [5, 9, 9]⟩).shared_owners.count 9 + 1 =
        List.count 9 [5, 9, 9] ∧
      (RobustLock.unlock_sharable 9 ⟨⟨false, 3, 0, 0⟩, 0, [5, 9, 9]⟩).mutex_.readers = 3 - 1 ∧
      (RobustLock.unlock_sharable 9 ⟨⟨false, 3, 0, 0⟩, 0, [5, 9, 9]⟩).mutex_.shared_unlocks =
        0 + 1 ∧
      (RobustLock.unlock_sharable 9 ⟨⟨false, 3, 0, 0⟩, 0, [5, 9, 9]⟩).mutex_.writer = false ∧
      (RobustLock.unlock_sharable 9 ⟨⟨false, 3, 0, 0⟩, 0, [5, 9, 9]⟩).mutex_.unlocks = 0 :=
  (unlock_sharable_pairs_removal_with_release 9 ⟨⟨false, 3, 0, 0⟩, 0, [5, 9, 9]⟩
    (by decide)).1 (by decide)

/-- A `try_lock()` that finds the mutex exclusively held and a live process recorded as
its owner fails and changes nothing. -/
theorem try_lock_live_writer (stat : ProcFs) (pid : Nat) (s : RobustLock)
    (hw : s.mutex_.writer = true) (howner : s.exclusive_owner ≠ 0)
    (hlive : proc_dead stat s.exclusive_owner = false) :
    RobustLock.try_lock stat pid s = (false, s) := by
  obtain ⟨m, o, reg⟩ := s
  obtain ⟨w, rd, u, su⟩ := m
  simp only at hw howner hlive
  subst hw
  simp [RobustLock.try_lock, RobustLock.recover_exclusive, PthreadReadWriteLock.try_lock,
    howner, hlive]

/-- C5 (a failed `try_lock()` on a live writer has no side effect).  The mutex is
exclusively held and `exclusive_owner` is the pid of a live process other than the
caller: `try_lock()` returns false and the lock (mutex, `exclusive_owner`, registry) is
exactly as before. -/
theorem try_lock_fails_on_live_owner (stat : ProcFs) (pid : Nat) (s : RobustLock)
    (hw : s.mutex_.writer = true) (hr : s.mutex_.readers = 0)
    (howner : s.exclusive_owner ≠ 0) (hother : s.exclusive_owner ≠ pid)
    (hlive : proc_dead stat s.exclusive_owner = false) :
    RobustLock.try_lock stat pid s = (false, s) :=
  try_lock_live_writer stat pid s hw howner hlive

/-- C5 on a concrete lock: pid 100 holds the exclusive lock and is alive, pid 200 calls
`try_lock()`. -/
theorem try_lock_fails_on_live_owner_witness :
    RobustLock.try_lock (fun _ => ⟨0, 0⟩) 200 ⟨⟨true, 0, 0, 0⟩, 100, [0, 0]⟩ =
      (false, ⟨⟨true, 0, 0, 0⟩, 100, [0, 0]⟩) :=
  try_lock_fails_on_live_owner (fun _ => ⟨0, 0⟩) 200 ⟨⟨true, 0, 0, 0⟩, 100, [0, 0]⟩
    rfl rfl (by decide) (by decide) (by decide)

theorem try_lock_calls_live_writer (stat : ProcFs) (pid : Nat) (s : RobustLock)
    (hw : s.mutex_.writer = true) (howner : s.exclusive_owner ≠ 0)
    (hlive : proc_dead stat s.exclusive_owner = false) :
    ∀ n, try_lock_calls stat pid n s = List.replicate n (false, s) := by
  intro n
  induction n with
  | zero => rfl
  | succ n ih =>
    simp [try_lock_calls, try_lock_live_writer stat pid s hw howner hlive, ih,
      List.replicate_succ]

/-- C6, as the code has it.  On a free lock that nobody else touches, of `n ≥ 1`
consecutive `try_lock()` calls by one live process the first returns true and every
later one returns false (the mutex is not re-entrant and the recorded owner, the caller
itself, is alive, so nothing is recovered); after each call, successful or not,
`exclusive_owner` is the pid of the caller and the mutex is exclusively held. -/
theorem try_lock_repeated_first_only (stat : ProcFs) (pid : Nat) (s : RobustLock) (n : Nat)
    (hpid : pid ≠ 0) (hlive : proc_dead stat pid = false)
    (hw : s.mutex_.writer = false) (hr : s.mutex_.readers = 0)
    (howner : s.exclusive_owner = 0) (hreg : s.shared_owners.occupied = 0)
    (hn : 1 ≤ n) :
    (try_lock_calls stat pid n s).map Prod.fst = true :: List.replicate (n - 1) false ∧
    (try_lock_calls stat pid n s).length = n ∧
    ∀ r ∈ try_lock_calls stat pid n s,
      r.2.exclusive_owner = pid ∧ r.2.mutex_.writer = true ∧ r.2.mutex_.readers = 0 ∧
      r.2.shared_owners = s.shared_owners := by
  obtain ⟨k, rfl⟩ : ∃ k, n = k + 1 := ⟨n - 1, by omega⟩
  obtain ⟨m, o, reg⟩ := s
  obtain ⟨w, rd, u, su⟩ := m
  simp only at hw hr howner
  subst hw hr howner
  have hfirst : RobustLock.try_lock stat pid ⟨⟨false, 0, u, su⟩, 0, reg⟩ =
      (true, ⟨⟨true, 0, u, su⟩, pid, reg⟩) := by
    simp [RobustLock.try_lock, PthreadReadWriteLock.try_lock]
  have hrest := try_lock_calls_live_writer stat pid ⟨⟨true, 0, u, su⟩, pid, reg⟩ rfl hpid hlive k
  simp only [try_lock_calls, hfirst, hrest]
  refine ⟨by simp, by simp, ?_⟩
  intro r hr
  rcases List.mem_cons.mp hr with h | h
  · subst h; simp
  · rw [List.eq_of_mem_replicate h]; simp

/-- C6 as amended, on a concrete run: three consecutive `try_lock()` calls by pid 7 on a
default-constructed lock with four registry slots. -/
theorem try_lock_repeated_first_only_witness :
    (try_lock_calls (fun _ => ⟨0, 0⟩) 7 3 (RobustLock.init 4)).map Prod.fst =
      true :: List.replicate (3 - 1) false ∧
    (try_lock_calls (fun _ => ⟨0, 0⟩) 7 3 (RobustLock.init 4)).length = 3 ∧
    ∀ r ∈ try_lock_calls (fun _ => ⟨0, 0⟩) 7 3 (RobustLock.init 4),
      r.2.exclusive_owner = 7 ∧ r.2.mutex_.writer = true ∧ r.2.mutex_.readers = 0 ∧
      r.2.shared_owners = (RobustLock.init 4).shared_owners :=
  try_lock_repeated_first_only (fun _ => ⟨0, 0⟩) 7 (RobustLock.init 4) 3
    (by decide) (by decide) rfl rfl rfl (by decide) (by decide)

/-- C6 as stated fails: on a default-constructed lock that only pid 7 (alive) touches,
the second of two consecutive `try_lock()` calls returns false. -/
theorem try_lock_second_call_fails :
    (try_lock_calls (fun _ => ⟨0, 0⟩) 7 2 (RobustLock.init 4)).map Prod.fst = [true, false] ∧
    ¬ (∀ r ∈ try_lock_calls (fun _ => ⟨0, 0⟩) 7 2 (RobustLock.init 4), r.1 = true) := by
  decide

/-! ## Shared mode -/

theorem insert_first_empty (elem : Nat) (rest : List Nat) :
    ∀ pre : List Nat, (∀ x ∈ pre, x ≠ 0) →
      LocklessSet.insert elem (pre ++ 0 :: rest) = (true, pre ++ elem :: rest) := by
  intro pre
  induction pre with
  | nil => intro _; simp [LocklessSet.insert]
  | cons x xs ih =>
    intro h
    have hx : x ≠ 0 := h x (List.mem_cons_self x xs)
    have hxs : ∀ y ∈ xs, y ≠ 0 := fun y hy => h y (List.mem_cons_of_mem x hy)
    simp [LocklessSet.insert, hx, ih hxs]

theorem insert_full (elem : Nat) :
    ∀ set : LocklessSet, (∀ x ∈ set, x ≠ 0) → LocklessSet.insert elem set = (false, set) := by
  intro set
  induction set with
  | nil => intro _; rfl
  | cons x xs ih =>
    intro h
    have hx : x ≠ 0 := h x (List.mem_cons_self x xs)
    have hxs : ∀ y ∈ xs, y ≠ 0 := fun y hy => h y (List.mem_cons_of_mem x hy)
    simp [LocklessSet.insert, hx, ih hxs]

/-- A registry with an empty slot splits at its first empty slot. -/
theorem first_empty (set : LocklessSet) (h : 0 ∈ set) :
    ∃ pre rest, (∀ x ∈ pre, x ≠ 0) ∧ set = pre ++ 0 :: rest := by
  obtain ⟨pre, rest, hpre, hset⟩ := first_occurrence 0 set h
  exact ⟨pre, rest, fun x hx h0 => hpre (h0 ▸ hx), hset⟩

/-- On a mutex that is not exclusively held, `lock_sharable()` takes a shared hold at
its first try-acquire and registers the caller in the first empty slot. -/
theorem lock_sharable_first_try (stat : ProcFs) (pid fuel : Nat) (m : PthreadReadWriteLock)
    (owner : Nat) (pre rest : List Nat) (hw : m.writer = false) (hpre : ∀ x ∈ pre, x ≠ 0) :
    RobustLock.lock_sharable stat pid (fuel + 1) ⟨m, owner, pre ++ 0 :: rest⟩ =
      some ⟨⟨{ m with readers := m.readers + 1 }, owner, pre ++ pid :: rest⟩, 0, 0⟩ := by
  simp [RobustLock.lock_sharable, PthreadReadWriteLock.try_lock_sharable, hw, insert_loop,
    insert_first_empty pid rest pre hpre]

theorem lock_sharable_each_fills (stat : ProcFs) (fuel owner : Nat) :
    ∀ (pids pre : List Nat) (k : Nat) (m : PthreadReadWriteLock),
      (∀ p ∈ pids, p ≠ 0) → (∀ x ∈ pre, x ≠ 0) → pids.length ≤ k → m.writer = false →
      lock_sharable_each stat (fuel + 1) pids ⟨m, owner, pre ++ List.replicate k 0⟩ =
        some ⟨{ m with readers := m.readers + pids.length }, owner,
          pre ++ pids ++ List.replicate (k - pids.length) 0⟩ := by
  intro pids
  induction pids with
  | nil => intro pre k m _ _ _ _; simp [lock_sharable_each]
  | cons p ps ih =>
    intro pre k m hnz hpre hk hw
    obtain ⟨j, rfl⟩ : ∃ j, k = j + 1 := ⟨k - 1, by simp at hk; omega⟩
    have hp : p ≠ 0 := hnz p (List.mem_cons_self p ps)
    have hps : ∀ q ∈ ps, q ≠ 0 := fun q hq => hnz q (List.mem_cons_of_mem p hq)
    have hpre' : ∀ x ∈ pre ++ [p], x ≠ 0 := by
      intro x hx
      rcases List.mem_append.mp hx with h | h
      · exact hpre x h
      · simp at h; subst h; exact hp
    have hj : ps.length ≤ j := by simp at hk; omega
    have hstep := lock_sharable_first_try stat p fuel m owner pre (List.replicate j 0) hw hpre
    have hih := ih (pre ++ [p]) j { m with readers := m.readers + 1 } hps hpre' hj hw
    simp only [List.replicate_succ, lock_sharable_each, hstep]
    simp only [List.append_assoc, List.singleton_append] at hih
    rw [hih]
    simp [Nat.add_assoc, Nat.add_comm 1]

theorem eq_replicate_of_filter_nil :
    ∀ set : LocklessSet, set.filter (fun x => x != 0) = [] →
      set = LocklessSet.empty set.length := by
  intro set
  induction set with
  | nil => intro _; rfl
  | cons x xs ih =>
    intro h
    by_cases hx : x = 0
    · subst hx
      have hxs : xs.filter (fun x => x != 0) = [] := by simpa using h
      have := ih hxs
      simp only [LocklessSet.empty] at this ⊢
      rw [List.length_cons, List.replicate_succ, ← this]
    · simp [List.filter_cons, hx] at h

theorem unlock_sharable_each_drains :
    ∀ (order : List Nat) (s : RobustLock),
      (∀ p ∈ order, p ≠ 0) → (s.shared_owners.filter (fun x => x != 0)).Perm order →
      unlock_sharable_each order s =
        ⟨{ s.mutex_ with
            readers := s.mutex_.readers - order.length
            shared_unlocks := s.mutex_.shared_unlocks + order.length },
          s.exclusive_owner, LocklessSet.empty s.shared_owners.length⟩ := by
  intro order
  induction order with
  | nil =>
    intro s _ hperm
    have := eq_replicate_of_filter_nil s.shared_owners (List.Perm.eq_nil hperm)
    obtain ⟨m, o, reg⟩ := s
    simp only at this
    simp [unlock_sharable_each, ← this]
  | cons p ps ih =>
    intro s hnz hperm
    have hp : p ≠ 0 := hnz p (List.mem_cons_self p ps)
    have hps : ∀ q ∈ ps, q ≠ 0 := fun q hq => hnz q (List.mem_cons_of_mem p hq)
    have hmem : p ∈ s.shared_owners :=
      (List.mem_filter.mp ((List.Perm.mem_iff hperm).mpr (List.mem_cons_self p ps))).1
    obtain ⟨pre, rest, hpre, hset⟩ := first_occurrence p s.shared_owners hmem
    have hun : RobustLock.unlock_sharable p s =
        ⟨s.mutex_.unlock_sharable, s.exclusive_owner, pre ++ 0 :: rest⟩ := by
      simp [RobustLock.unlock_sharable, hset, remove_first p rest pre hpre]
    have hperm' : ((pre ++ 0 :: rest).filter (fun x => x != 0)).Perm ps := by
      rw [hset] at hperm
      have h1 : ((pre ++ p :: rest).filter (fun x => x != 0)) =
          pre.filter (fun x => x != 0) ++ p :: rest.filter (fun x => x != 0) := by
        simp [List.filter_cons, hp]
      have h2 : ((pre ++ 0 :: rest).filter (fun x => x != 0)) =
          pre.filter (fun x => x != 0) ++ rest.filter (fun x => x != 0) := by
        simp [List.filter_cons]
      rw [h1] at hperm
      rw [h2]
      exact List.Perm.cons_inv (List.Perm.trans List.perm_middle.symm hperm)
    have := ih ⟨s.mutex_.unlock_sharable, s.exclusive_owner, pre ++ 0 :: rest⟩ hps hperm'
    simp only [unlock_sharable_each, hun, this, hset]
    simp [PthreadReadWriteLock.unlock_sharable]
    omega

/-- C7 (registry accounting).  On a default-constructed lock whose registry has room for
them, one `lock_sharable()` call by each of `N` distinct live non-zero pids returns
(fuel for one try-acquire and one `insert` is enough for each), leaving the `N` pids in
the registry and `N` shared holds on the mutex; `N` `unlock_sharable()` calls by the same
pids, in any order, then leave the registry empty and the mutex with no shared hold, after
exactly `N` releases. -/
theorem registry_accounting (stat : ProcFs) (capacity fuel : Nat) (pids order : List Nat)
    (hcap : pids.length ≤ capacity) (hnodup : pids.Nodup)
    (hnz : ∀ p ∈ pids, p ≠ 0) (hlive : ∀ p ∈ pids, proc_dead stat p = false)
    (horder : order.Perm pids) (hfuel : 1 ≤ fuel) :
    ∃ s, lock_sharable_each stat fuel pids (RobustLock.init capacity) = some s ∧
      s.shared_owners = pids ++ List.replicate (capacity - pids.length) 0 ∧
      s.shared_owners.occupied = pids.length ∧
      s.mutex_.readers = pids.length ∧ s.mutex_.writer = false ∧ s.exclusive_owner = 0 ∧
      (unlock_sharable_each order s).shared_owners = LocklessSet.empty capacity ∧
      (unlock_sharable_each order s).shared_owners.occupied = 0 ∧
      (unlock_sharable_each order s).mutex_.readers = 0 ∧
      (unlock_sharable_each order s).mutex_.writer = false ∧
      (unlock_sharable_each order s).mutex_.shared_unlocks = pids.length ∧
      (unlock_sharable_each order s).exclusive_owner = 0 := by
  obtain ⟨f, rfl⟩ : ∃ f, fuel = f + 1 := ⟨fuel - 1, by omega⟩
  have hfill := lock_sharable_each_fills stat f 0 pids [] capacity
    ⟨false, 0, 0, 0⟩ hnz (by simp) hcap rfl
  simp only [List.nil_append, Nat.zero_add] at hfill
  have hfilter : ((pids ++ List.replicate (capacity - pids.length) 0).filter
      (fun x => x != 0)) = pids := by
    rw [List.filter_append]
    have h1 : pids.filter (fun x => x != 0) = pids :=
      List.filter_eq_self.mpr (fun x hx => by simpa using hnz x hx)
    have h2 : (List.replicate (capacity - pids.length) 0).filter (fun x => x != 0) = [] :=
      List.filter_eq_nil_iff.mpr (fun x hx => by simp [List.eq_of_mem_replicate hx])
    rw [h1, h2, List.append_nil]
  have hdrain := unlock_sharable_each_drains order
    ⟨⟨false, pids.length, 0, 0⟩, 0, pids ++ List.replicate (capacity - pids.length) 0⟩
    (fun p hp => hnz p ((List.Perm.mem_iff horder).mp hp))
    (by simp only [hfilter]; exact horder.symm)
  have hlen : order.length = pids.length := List.Perm.length_eq horder
  have htotal : pids.length + (capacity - pids.length) = capacity := by omega
  refine ⟨_, hfill, rfl, ?_, rfl, rfl, rfl, ?_⟩
  · simp [LocklessSet.occupied, hfilter]
  · rw [hdrain]
    simp [hlen, htotal, LocklessSet.occupied, LocklessSet.empty]

/-- C7 on a concrete run: pids 11, 12 and 13 take the shared lock of a lock with four
registry slots and give it back in the order 13, 11, 12. -/
theorem registry_accounting_witness :
    ∃ s, lock_sharable_each (fun _ => ⟨0, 0⟩) 1 [11, 12, 13] (RobustLock.init 4) = some s ∧
      s.shared_owners = [11, 12, 13] ++ List.replicate (4 - [11, 12, 13].length) 0 ∧
      s.shared_owners.occupied = [11, 12, 13].length ∧
      s.mutex_.readers = [11, 12, 13].length ∧ s.mutex_.writer = false ∧
      s.exclusive_owner = 0 ∧
      (unlock_sharable_each [13, 11, 12] s).shared_owners = LocklessSet.empty 4 ∧
      (unlock_sharable_each [13, 11, 12] s).shared_owners.occupied = 0 ∧
      (unlock_sharable_each [13, 11, 12] s).mutex_.readers = 0 ∧
      (unlock_sharable_each [13, 11, 12] s).mutex_.writer = false ∧
      (unlock_sharable_each [13, 11, 12] s).mutex_.shared_unlocks = [11, 12, 13].length ∧
      (unlock_sharable_each [13, 11, 12] s).exclusive_owner = 0 :=
  registry_accounting (fun _ => ⟨0, 0⟩) 4 1 [11, 12, 13] [13, 11, 12]
    (by decide) (by decide) (by decide) (by decide) (by decide) (by decide)

/-! ## Reachable states -/

theorem occupied_clear_dead (stat : ProcFs) :
    ∀ set : LocklessSet,
      LocklessSet.occupied (set.map (fun v => if proc_dead stat v then 0 else v)) +
        (set.filter (proc_dead stat)).length = LocklessSet.occupied set := by
  intro set
  induction set with
  | nil => rfl
  | cons x xs ih =>
    by_cases h0 : x = 0
    · subst h0
      simp only [List.map_cons, List.filter_cons, proc_dead_zero, occupied_cons]
      simpa using ih
    · by_cases hd : proc_dead stat x = true
      · simp only [List.map_cons, List.filter_cons, hd, occupied_cons, if_true, if_neg h0,
          List.length_cons]
        omega
      · have hd' : proc_dead stat x = false := by simpa using hd
        simp only [List.map_cons, List.filter_cons, hd', occupied_cons, if_neg h0]
        simp only [Bool.false_eq_true, if_false, if_neg h0]
        omega

theorem occupied_pos_of_mem (set : LocklessSet) (p : Nat) (hp : p ∈ set) (hp0 : p ≠ 0) :
    0 < LocklessSet.occupied set := by
  unfold LocklessSet.occupied
  apply List.length_pos_of_mem (a := p)
  exact List.mem_filter.mpr ⟨hp, by simpa using hp0⟩

theorem insert_occupied (elem : Nat) (helem : elem ≠ 0) :
    ∀ set : LocklessSet,
      ((LocklessSet.insert elem set).1 = true →
        LocklessSet.occupied (LocklessSet.insert elem set).2 = LocklessSet.occupied set + 1) ∧
      ((LocklessSet.insert elem set).1 = false → (LocklessSet.insert elem set).2 = set) := by
  intro set
  induction set with
  | nil => simp [LocklessSet.insert]
  | cons x xs ih =>
    by_cases hx : x = 0
    · subst hx
      simp [LocklessSet.insert, occupied_cons, helem]
      omega
    · simp only [LocklessSet.insert, if_neg hx, occupied_cons]
      refine ⟨fun h => ?_, fun h => ?_⟩
      · have := ih.1 h
        omega
      · rw [ih.2 h]

theorem insert_loop_occupied (pid : Nat) (hpid : pid ≠ 0) :
    ∀ (fuel : Nat) (set set' : LocklessSet), insert_loop pid fuel set = some set' →
      LocklessSet.occupied set' = LocklessSet.occupied set + 1 := by
  intro fuel
  induction fuel with
  | zero => intro set set' h; simp [insert_loop] at h
  | succ fuel ih =>
    intro set set' h
    have hins := insert_occupied pid hpid set
    rcases hres : LocklessSet.insert pid set with ⟨b, set₁⟩
    rw [hres] at hins
    cases b with
    | true =>
      simp only [insert_loop, hres, Option.some.injEq] at h
      subst h
      exact hins.1 rfl
    | false =>
      simp only [insert_loop, hres] at h
      have hsame : set₁ = set := hins.2 rfl
      rw [hsame] at h
      exact ih set set' h

theorem remove_occupied (elem : Nat) (helem : elem ≠ 0) (set : LocklessSet) :
    ((LocklessSet.remove elem set).1 = true →
      LocklessSet.occupied (LocklessSet.remove elem set).2 + 1 = LocklessSet.occupied set) ∧
    ((LocklessSet.remove elem set).1 = false → (LocklessSet.remove elem set).2 = set) := by
  by_cases hmem : elem ∈ set
  · obtain ⟨pre, rest, hpre, hset⟩ := first_occurrence elem set hmem
    subst hset
    rw [remove_first elem rest pre hpre]
    simp [occupied_append, occupied_cons, helem]
    omega
  · rw [remove_of_not_mem elem set hmem]
    simp

theorem consistent_init (capacity : Nat) : (RobustLock.init capacity).consistent := by
  refine ⟨by simp [RobustLock.init], by simp [RobustLock.init], ?_⟩
  simp [RobustLock.init, LocklessSet.occupied, LocklessSet.empty]

theorem consistent_prune_readers (stat : ProcFs) (s : RobustLock) (h : s.consistent) :
    (RobustLock.prune_readers stat s).consistent := by
  obtain ⟨h1, h2, h3⟩ := h
  rw [prune_readers_eq]
  have := occupied_clear_dead stat s.shared_owners
  refine ⟨h1, fun hw => ?_, ?_⟩
  · have := h2 hw
    simp only at this ⊢
    omega
  · simp only
    omega

theorem consistent_recover_exclusive (stat : ProcFs) (s : RobustLock) (h : s.consistent) :
    (RobustLock.recover_exclusive stat s).2.consistent := by
  unfold RobustLock.recover_exclusive
  by_cases ho : s.exclusive_owner = 0
  · simp only [ho, ne_eq, not_true_eq_false, if_false]
    exact consistent_prune_readers stat s h
  · by_cases hd : proc_dead stat s.exclusive_owner = true
    · obtain ⟨h1, h2, h3⟩ := h
      simp only [ne_eq, ho, not_false_eq_true, if_true, hd, compare_exchange_strong]
      exact ⟨by simp, by simp [PthreadReadWriteLock.unlock],
        by simpa [PthreadReadWriteLock.unlock] using h3⟩
    · simp only [ne_eq, ho, not_false_eq_true, if_true, hd]
      exact h

theorem consistent_lock (stat : ProcFs) (pid : Nat) :
    ∀ (fuel : Nat) (s : RobustLock) (r : LockRun), s.consistent →
      RobustLock.lock stat pid fuel s = some r → r.state.consistent := by
  intro fuel
  induction fuel with
  | zero => intro s r _ h; simp [RobustLock.lock] at h
  | succ fuel ih =>
    intro s r hs h
    by_cases hfree : s.mutex_.writer = false ∧ s.mutex_.readers = 0
    · simp only [RobustLock.lock, PthreadReadWriteLock.try_lock, hfree, and_self, if_true,
        Option.some.injEq] at h
      subst h
      obtain ⟨h1, h2, h3⟩ := hs
      exact ⟨fun _ => rfl, fun _ => rfl, hfree.2.symm.trans h3⟩
    · have hrec := consistent_recover_exclusive stat s hs
      simp only [RobustLock.lock, PthreadReadWriteLock.try_lock, hfree, if_false] at h
      rcases hres : RobustLock.recover_exclusive stat s with ⟨b, s'⟩
      rw [hres] at hrec
      have hs' : RobustLock.recover_exclusive stat
          { mutex_ := s.mutex_, exclusive_owner := s.exclusive_owner,
            shared_owners := s.shared_owners } = (b, s') := hres
      rw [hs'] at h
      cases b with
      | true =>
        simp only [Option.map_eq_some'] at h
        obtain ⟨r', hr', rfl⟩ := h
        exact ih s' r' hrec hr'
      | false =>
        simp only [Option.map_eq_some'] at h
        obtain ⟨r', hr', rfl⟩ := h
        exact ih s' r' hrec hr'

theorem consistent_try_lock (stat : ProcFs) (pid : Nat) (s : RobustLock) (hs : s.consistent) :
    (RobustLock.try_lock stat pid s).2.consistent := by
  by_cases hfree : s.mutex_.writer = false ∧ s.mutex_.readers = 0
  · simp only [RobustLock.try_lock, PthreadReadWriteLock.try_lock, hfree, and_self, if_true]
    obtain ⟨h1, h2, h3⟩ := hs
    exact ⟨fun _ => rfl, fun _ => rfl, hfree.2.symm.trans h3⟩
  · have hrec := consistent_recover_exclusive stat s hs
    obtain ⟨h1, h2, h3⟩ := hrec
    simp only [RobustLock.try_lock, PthreadReadWriteLock.try_lock, hfree, if_false]
    by_cases hfree' : (RobustLock.recover_exclusive stat s).2.mutex_.writer = false ∧
        (RobustLock.recover_exclusive stat s).2.mutex_.readers = 0
    · simp only [hfree', and_self, if_true]
      exact ⟨fun _ => rfl, fun _ => rfl, hfree'.2.symm.trans h3⟩
    · simp only [hfree', if_false]
      exact ⟨h1, h2, h3⟩

theorem consistent_unlock (pid : Nat) (s : RobustLock) (hs : s.consistent) :
    (RobustLock.unlock pid s).consistent := by
  obtain ⟨h1, h2, h3⟩ := hs
  by_cases h : s.exclusive_owner = pid
  · simp only [RobustLock.unlock, compare_exchange_strong, h, if_true]
    exact ⟨by simp, by simp [PthreadReadWriteLock.unlock],
      by simpa [PthreadReadWriteLock.unlock] using h3⟩
  · simp only [RobustLock.unlock, compare_exchange_strong, h, if_false]
    exact ⟨h1, h2, h3⟩

theorem consistent_recover_sharable (stat : ProcFs) (s : RobustLock) (h : s.consistent) :
    (RobustLock.recover_sharable stat s).consistent := by
  unfold RobustLock.recover_sharable
  by_cases ho : s.exclusive_owner = 0
  · simp only [ho, ne_eq, not_true_eq_false, if_false]
    exact h
  · by_cases hd : proc_dead stat s.exclusive_owner = true
    · obtain ⟨h1, h2, h3⟩ := h
      simp only [ne_eq, ho, not_false_eq_true, if_true, hd, compare_exchange_strong]
      exact ⟨by simp, by simp [PthreadReadWriteLock.unlock],
        by simpa [PthreadReadWriteLock.unlock] using h3⟩
    · simp only [ne_eq, ho, not_false_eq_true, if_true, hd]
      exact h

/-- A shared acquire followed by the registration of a non-zero pid keeps a lock
consistent. -/
theorem consistent_register (pid fuel : Nat) (hpid : pid ≠ 0) (s : RobustLock)
    (set : LocklessSet) (hs : s.consistent) (hw : s.mutex_.writer = false)
    (hset : insert_loop pid fuel s.shared_owners = some set) :
    RobustLock.consistent
      ⟨{ s.mutex_ with readers := s.mutex_.readers + 1 }, s.exclusive_owner, set⟩ := by
  obtain ⟨h1, h2, h3⟩ := hs
  have := insert_loop_occupied pid hpid fuel s.shared_owners set hset
  refine ⟨fun ho => ?_, fun hw' => ?_, ?_⟩
  · have := h1 ho
    rw [hw] at this
    exact Bool.noConfusion this
  · simp only at hw'
    rw [hw] at hw'
    exact Bool.noConfusion hw'
  · simp only
    omega

/-- The first step of `lock_sharable()` on a mutex that is not exclusively held. -/
theorem lock_sharable_succ_of_not_writer (stat : ProcFs) (pid fuel : Nat) (s : RobustLock)
    (hw : s.mutex_.writer = false) :
    RobustLock.lock_sharable stat pid (fuel + 1) s =
      (insert_loop pid (fuel + 1) s.shared_owners).map (fun set =>
        ⟨⟨{ s.mutex_ with readers := s.mutex_.readers + 1 }, s.exclusive_owner, set⟩, 0, 0⟩) := by
  obtain ⟨⟨w, rd, u, su⟩, o, reg⟩ := s
  simp only at hw
  subst hw
  simp [RobustLock.lock_sharable, PthreadReadWriteLock.try_lock_sharable]

/-- The first step of `lock_sharable()` on a mutex that is exclusively held. -/
theorem lock_sharable_succ_of_writer (stat : ProcFs) (pid fuel : Nat) (s : RobustLock)
    (hw : s.mutex_.writer = true) :
    RobustLock.lock_sharable stat pid (fuel + 1) s =
      (RobustLock.lock_sharable stat pid fuel (RobustLock.recover_sharable stat s)).map
        (LockRun.next true) := by
  obtain ⟨⟨w, rd, u, su⟩, o, reg⟩ := s
  simp only at hw
  subst hw
  simp [RobustLock.lock_sharable, PthreadReadWriteLock.try_lock_sharable]

/-- The method `try_lock_sharable()` on a mutex that is not exclusively held. -/
theorem try_lock_sharable_of_not_writer (stat : ProcFs) (pid fuel : Nat) (s : RobustLock)
    (hw : s.mutex_.writer = false) :
    RobustLock.try_lock_sharable stat pid fuel s =
      (insert_loop pid fuel s.shared_owners).map (fun set =>
        (true, ⟨{ s.mutex_ with readers := s.mutex_.readers + 1 }, s.exclusive_owner, set⟩)) := by
  obtain ⟨⟨w, rd, u, su⟩, o, reg⟩ := s
  simp only at hw
  subst hw
  simp [RobustLock.try_lock_sharable, PthreadReadWriteLock.try_lock_sharable]

/-- The method `try_lock_sharable()` on a mutex that is exclusively held: the recovery
block, then the second try-acquire. -/
theorem try_lock_sharable_of_writer (stat : ProcFs) (pid fuel : Nat) (s : RobustLock)
    (hw : s.mutex_.writer = true) :
    RobustLock.try_lock_sharable stat pid fuel s =
      if (RobustLock.recover_sharable stat s).mutex_.writer = false then
        (insert_loop pid fuel (RobustLock.recover_sharable stat s).shared_owners).map (fun set =>
          (true, ⟨{ (RobustLock.recover_sharable stat s).mutex_ with
                      readers := (RobustLock.recover_sharable stat s).mutex_.readers + 1 },
                  (RobustLock.recover_sharable stat s).exclusive_owner, set⟩))
      else some (false, RobustLock.recover_sharable stat s) := by
  obtain ⟨⟨w, rd, u, su⟩, o, reg⟩ := s
  simp only at hw
  subst hw
  simp only [RobustLock.try_lock_sharable, PthreadReadWriteLock.try_lock_sharable,
    Bool.true_eq_false, if_false]
  generalize RobustLock.recover_sharable stat _ = r
  obtain ⟨⟨w', rd', u', su'⟩, o', reg'⟩ := r
  cases w' <;> simp

theorem consistent_lock_sharable (stat : ProcFs) (pid : Nat) (hpid : pid ≠ 0) :
    ∀ (fuel : Nat) (s : RobustLock) (r : LockRun), s.consistent →
      RobustLock.lock_sharable stat pid fuel s = some r → r.state.consistent := by
  intro fuel
  induction fuel with
  | zero => intro s r _ h; simp [RobustLock.lock_sharable] at h
  | succ fuel ih =>
    intro s r hs h
    cases hw : s.mutex_.writer with
    | false =>
      rw [lock_sharable_succ_of_not_writer stat pid fuel s hw, Option.map_eq_some'] at h
      obtain ⟨set, hset, rfl⟩ := h
      exact consistent_register pid (fuel + 1) hpid s set hs hw hset
    | true =>
      rw [lock_sharable_succ_of_writer stat pid fuel s hw, Option.map_eq_some'] at h
      obtain ⟨r', hr', rfl⟩ := h
      exact ih _ r' (consistent_recover_sharable stat s hs) hr'

theorem consistent_try_lock_sharable (stat : ProcFs) (pid fuel : Nat) (hpid : pid ≠ 0)
    (s s' : RobustLock) (b : Bool) (hs : s.consistent)
    (h : RobustLock.try_lock_sharable stat pid fuel s = some (b, s')) : s'.consistent := by
  cases hw : s.mutex_.writer with
  | false =>
    rw [try_lock_sharable_of_not_writer stat pid fuel s hw, Option.map_eq_some'] at h
    obtain ⟨set, hset, heq⟩ := h
    rw [← (Prod.mk.inj heq).2]
    exact consistent_register pid fuel hpid s set hs hw hset
  | true =>
    have hrec := consistent_recover_sharable stat s hs
    rw [try_lock_sharable_of_writer stat pid fuel s hw] at h
    by_cases hw' : (RobustLock.recover_sharable stat s).mutex_.writer = false
    · rw [if_pos hw', Option.map_eq_some'] at h
      obtain ⟨set, hset, heq⟩ := h
      rw [← (Prod.mk.inj heq).2]
      exact consistent_register pid fuel hpid _ set hrec hw' hset
    · rw [if_neg hw'] at h
      rw [← (Prod.mk.inj (Option.some.inj h)).2]
      exact hrec

theorem consistent_unlock_sharable (pid : Nat) (hpid : pid ≠ 0) (s : RobustLock)
    (hs : s.consistent) : (RobustLock.unlock_sharable pid s).consistent := by
  obtain ⟨h1, h2, h3⟩ := hs
  have hrem := remove_occupied pid hpid s.shared_owners
  unfold RobustLock.unlock_sharable
  rcases hres : LocklessSet.remove pid s.shared_owners with ⟨b, set⟩
  rw [hres] at hrem
  cases b with
  | true =>
    have := hrem.1 rfl
    simp only at this
    refine ⟨h1, fun hw => ?_, ?_⟩
    · have := h2 hw
      simp only [PthreadReadWriteLock.unlock_sharable]
      omega
    · simp only [PthreadReadWriteLock.unlock_sharable]
      omega
  | false =>
    have hsame : set = s.shared_owners := hrem.2 rfl
    subst hsame
    exact ⟨h1, h2, h3⟩

/-- Every reachable state is consistent, whatever the capacity of the registry. -/
theorem reachable_consistent (capacity : Nat) (stat : ProcFs) (s : RobustLock)
    (h : Reachable capacity stat s) : s.consistent := by
  induction h with
  | init stat => exact consistent_init capacity
  | death _ _ ih => exact ih
  | lock _ _ _ hrun ih => exact consistent_lock _ _ _ _ _ ih hrun
  | try_lock _ _ _ ih => exact consistent_try_lock _ _ _ ih
  | unlock _ _ _ ih => exact consistent_unlock _ _ ih
  | lock_sharable _ hpid _ hrun ih => exact consistent_lock_sharable _ _ hpid _ _ _ ih hrun
  | try_lock_sharable _ hpid _ hrun ih =>
    exact consistent_try_lock_sharable _ _ _ hpid _ _ _ ih hrun
  | unlock_sharable _ hpid _ ih => exact consistent_unlock_sharable _ hpid _ ih

/-- A lock whose shared holds match its registry and whose registry holds a live pid
cannot be acquired exclusively, and the recovery block of `lock` / `try_lock` keeps it
that way: it prunes the dead readers only. -/
theorem live_reader_survives_recovery (stat : ProcFs) (p : Nat) (s : RobustLock)
    (hp0 : p ≠ 0) (hlive : proc_dead stat p = false)
    (hbacked : s.mutex_.readers = s.shared_owners.occupied) (hp : p ∈ s.shared_owners) :
    s.mutex_.try_lock = (false, s.mutex_) ∧
    (RobustLock.recover_exclusive stat s).2.mutex_.readers =
      (RobustLock.recover_exclusive stat s).2.shared_owners.occupied ∧
    p ∈ (RobustLock.recover_exclusive stat s).2.shared_owners := by
  have hpos := occupied_pos_of_mem s.shared_owners p hp hp0
  have hne : ¬ s.mutex_.readers = 0 := by omega
  refine ⟨by simp [PthreadReadWriteLock.try_lock, hne], ?_⟩
  unfold RobustLock.recover_exclusive
  by_cases ho : s.exclusive_owner = 0
  · simp only [ho, ne_eq, not_true_eq_false, if_false]
    rw [prune_readers_eq]
    have := occupied_clear_dead stat s.shared_owners
    refine ⟨by simp only; omega, ?_⟩
    exact List.mem_map.mpr ⟨p, hp, by simp [hlive]⟩
  · by_cases hd : proc_dead stat s.exclusive_owner = true
    · simp only [ne_eq, ho, not_false_eq_true, if_true, hd, compare_exchange_strong]
      exact ⟨by simpa [PthreadReadWriteLock.unlock] using hbacked, hp⟩
    · simp only [ne_eq, ho, not_false_eq_true, if_true, hd]
      exact ⟨hbacked, hp⟩

theorem lock_blocked_by_live_reader (stat : ProcFs) (pid p : Nat)
    (hp0 : p ≠ 0) (hlive : proc_dead stat p = false) :
    ∀ (fuel : Nat) (s : RobustLock),
      s.mutex_.readers = s.shared_owners.occupied → p ∈ s.shared_owners →
      RobustLock.lock stat pid fuel s = none := by
  intro fuel
  induction fuel with
  | zero => intro s _ _; rfl
  | succ fuel ih =>
    intro s hbacked hp
    obtain ⟨htry, hb', hp'⟩ := live_reader_survives_recovery stat p s hp0 hlive hbacked hp
    have hs' : RobustLock.recover_exclusive stat
        { mutex_ := s.mutex_, exclusive_owner := s.exclusive_owner,
          shared_owners := s.shared_owners } = RobustLock.recover_exclusive stat s := rfl
    simp only [RobustLock.lock, htry, hs']
    rcases hres : RobustLock.recover_exclusive stat s with ⟨b, s'⟩
    rw [hres] at hb' hp'
    cases b <;> simp [ih s' hb' hp']

/-- C8 (a writer is excluded by live readers).  In every reachable state whose registry
holds at least one live pid `p`, `try_lock()` by any caller returns false and `lock()`
does not return, whatever fuel it is given; the dead readers that the call prunes do not
change that: after the failed `try_lock()` the live reader is still registered, still
backed by a shared hold, and nobody is recorded as exclusive owner by the call. -/
theorem writer_excluded_by_live_reader (capacity : Nat) (stat : ProcFs) (s : RobustLock)
    (pid p : Nat) (hreach : Reachable capacity stat s)
    (hp : p ∈ s.shared_owners) (hp0 : p ≠ 0) (hlive : proc_dead stat p = false) :
    (RobustLock.try_lock stat pid s).1 = false ∧
    (∀ fuel, RobustLock.lock stat pid fuel s = none) ∧
    p ∈ (RobustLock.try_lock stat pid s).2.shared_owners ∧
    0 < (RobustLock.try_lock stat pid s).2.mutex_.readers ∧
    (RobustLock.try_lock stat pid s).2.mutex_.writer = false := by
  have hcons := reachable_consistent capacity stat s hreach
  obtain ⟨h1, h2, h3⟩ := hcons
  obtain ⟨htry, hb', hp'⟩ := live_reader_survives_recovery stat p s hp0 hlive h3 hp
  have hpos' := occupied_pos_of_mem _ p hp' hp0
  have hne' : ¬ (RobustLock.recover_exclusive stat s).2.mutex_.readers = 0 := by omega
  have hcons' := consistent_recover_exclusive stat s ⟨h1, h2, h3⟩
  have hw' : (RobustLock.recover_exclusive stat s).2.mutex_.writer = false := by
    cases hw : (RobustLock.recover_exclusive stat s).2.mutex_.writer with
    | false => rfl
    | true => exact absurd (hcons'.2.1 hw) hne'
  have hs' : RobustLock.recover_exclusive stat
      { mutex_ := s.mutex_, exclusive_owner := s.exclusive_owner,
        shared_owners := s.shared_owners } = RobustLock.recover_exclusive stat s := rfl
  have htry' : (RobustLock.recover_exclusive stat s).2.mutex_.try_lock =
      (false, (RobustLock.recover_exclusive stat s).2.mutex_) := by
    simp [PthreadReadWriteLock.try_lock, hne']
  have hcall : RobustLock.try_lock stat pid s =
      (false, (RobustLock.recover_exclusive stat s).2) := by
    simp only [RobustLock.try_lock, htry, hs', htry']
  refine ⟨by rw [hcall], fun fuel => lock_blocked_by_live_reader stat pid p hp0 hlive fuel s h3 hp,
    by rw [hcall]; exact hp', by rw [hcall]; exact Nat.pos_of_ne_zero hne',
    by rw [hcall]; exact hw'⟩

/-- A reachable state with one live and one dead reader: on a default-constructed lock
with two registry slots, pids 5 and 6 take the shared lock, then pid 6 dies. -/
theorem reachable_live_and_dead_reader :
    Reachable 2 (fun p => if p = 6 then ⟨-1, ENOENT⟩ else ⟨0, 0⟩)
      ⟨⟨false, 2, 0, 0⟩, 0, [5, 6]⟩ := by
  have h0 : Reachable 2 (fun _ => ⟨0, 0⟩) (RobustLock.init 2) := Reachable.init _
  have h1 : Reachable 2 (fun _ => ⟨0, 0⟩) ⟨⟨false, 1, 0, 0⟩, 0, [5, 0]⟩ :=
    @Reachable.lock_sharable 2 _ _ 5 1 ⟨⟨⟨false, 1, 0, 0⟩, 0, [5, 0]⟩, 0, 0⟩
      h0 (by decide) (by decide) (by decide)
  have h2 : Reachable 2 (fun _ => ⟨0, 0⟩) ⟨⟨false, 2, 0, 0⟩, 0, [5, 6]⟩ :=
    @Reachable.lock_sharable 2 _ _ 6 1 ⟨⟨⟨false, 2, 0, 0⟩, 0, [5, 6]⟩, 0, 0⟩
      h1 (by decide) (by decide) (by decide)
  exact Reachable.death h2 (fun p hp => by simp [proc_dead] at hp)

/-- C8 on a concrete reachable state: pid 5 (alive) and pid 6 (dead) are registered
readers; `try_lock()` by pid 9 prunes pid 6 and still fails, and `lock()` by pid 9 does
not return. -/
theorem writer_excluded_by_live_reader_witness :
    (RobustLock.try_lock (fun p => if p = 6 then ⟨-1, ENOENT⟩ else ⟨0, 0⟩) 9
      ⟨⟨false, 2, 0, 0⟩, 0, [5, 6]⟩).1 = false ∧
    (∀ fuel, RobustLock.lock (fun p => if p = 6 then ⟨-1, ENOENT⟩ else ⟨0, 0⟩) 9 fuel
      ⟨⟨false, 2, 0, 0⟩, 0, [5, 6]⟩ = none) ∧
    5 ∈ (RobustLock.try_lock (fun p => if p = 6 then ⟨-1, ENOENT⟩ else ⟨0, 0⟩) 9
      ⟨⟨false, 2, 0, 0⟩, 0, [5, 6]⟩).2.shared_owners ∧
    0 < (RobustLock.try_lock (fun p => if p = 6 then ⟨-1, ENOENT⟩ else ⟨0, 0⟩) 9
      ⟨⟨false, 2, 0, 0⟩, 0, [5, 6]⟩).2.mutex_.readers ∧
    (RobustLock.try_lock (fun p => if p = 6 then ⟨-1, ENOENT⟩ else ⟨0, 0⟩) 9
      ⟨⟨false, 2, 0, 0⟩, 0, [5, 6]⟩).2.mutex_.writer = false :=
  writer_excluded_by_live_reader 2 (fun p => if p = 6 then ⟨-1, ENOENT⟩ else ⟨0, 0⟩)
    ⟨⟨false, 2, 0, 0⟩, 0, [5, 6]⟩ 9 5 reachable_live_and_dead_reader
    (by decide) (by decide) (by decide)

/-- C9 (readers are excluded by a live writer, and nothing of the writer is freed).  In
every reachable state whose recorded exclusive owner is a live process,
`try_lock_sharable()` by any other process returns false (whatever fuel its registration
loop is given) and leaves the whole lock as it was: the mutex is not released,
`exclusive_owner` is unchanged and the caller is not added to `shared_owners`. -/
theorem readers_excluded_by_live_writer (capacity : Nat) (stat : ProcFs) (s : RobustLock)
    (pid fuel : Nat) (hreach : Reachable capacity stat s)
    (howner : s.exclusive_owner ≠ 0) (hlive : proc_dead stat s.exclusive_owner = false)
    (hother : pid ≠ s.exclusive_owner) :
    RobustLock.try_lock_sharable stat pid fuel s = some (false, s) ∧
    s.mutex_.writer = true := by
  obtain ⟨h1, h2, h3⟩ := reachable_consistent capacity stat s hreach
  have hw := h1 howner
  have hrec : RobustLock.recover_sharable stat s = s := by
    simp [RobustLock.recover_sharable, howner, hlive]
  refine ⟨?_, hw⟩
  rw [try_lock_sharable_of_writer stat pid fuel s hw, hrec]
  simp [hw]

/-- A reachable state with a live writer: pid 100 takes the exclusive lock of a
default-constructed lock with two registry slots. -/
theorem reachable_live_writer :
    Reachable 2 (fun _ => ⟨0, 0⟩) ⟨⟨true, 0, 0, 0⟩, 100, [0, 0]⟩ :=
  @Reachable.lock 2 _ _ 100 1 ⟨⟨⟨true, 0, 0, 0⟩, 100, [0, 0]⟩, 0, 0⟩
    (Reachable.init _) (by decide) (by decide) (by decide)

/-- C9 on a concrete reachable state: pid 100 (alive) holds the exclusive lock, pid 200
calls `try_lock_sharable()`. -/
theorem readers_excluded_by_live_writer_witness :
    RobustLock.try_lock_sharable (fun _ => ⟨0, 0⟩) 200 1 ⟨⟨true, 0, 0, 0⟩, 100, [0, 0]⟩ =
      some (false, ⟨⟨true, 0, 0, 0⟩, 100, [0, 0]⟩) ∧
    (⟨⟨true, 0, 0, 0⟩, 100, [0, 0]⟩ : RobustLock).mutex_.writer = true :=
  readers_excluded_by_live_writer 2 (fun _ => ⟨0, 0⟩) ⟨⟨true, 0, 0, 0⟩, 100, [0, 0]⟩ 200 1
    reachable_live_writer (by decide) (by decide) (by decide)

theorem insert_loop_full (pid : Nat) (set : LocklessSet) (hfull : ∀ x ∈ set, x ≠ 0) :
    ∀ fuel, insert_loop pid fuel set = none := by
  intro fuel
  induction fuel with
  | zero => rfl
  | succ fuel ih => simp [insert_loop, insert_full pid set hfull, ih]

theorem insert_loop_first_empty (pid fuel : Nat) (pre rest : List Nat)
    (hpre : ∀ x ∈ pre, x ≠ 0) :
    insert_loop pid (fuel + 1) (pre ++ 0 :: rest) = some (pre ++ pid :: rest) := by
  simp [insert_loop, insert_first_empty pid rest pre hpre]

theorem recover_sharable_frame (stat : ProcFs) (s : RobustLock) :
    (RobustLock.recover_sharable stat s).shared_owners = s.shared_owners ∧
    (RobustLock.recover_sharable stat s).mutex_.readers = s.mutex_.readers ∧
    (RobustLock.recover_sharable stat s).mutex_.shared_unlocks = s.mutex_.shared_unlocks ∧
    (RobustLock.recover_sharable stat s).mutex_.unlocks ≤ s.mutex_.unlocks + 1 := by
  unfold RobustLock.recover_sharable
  by_cases ho : s.exclusive_owner = 0
  · simp [ho]
  · by_cases hd : proc_dead stat s.exclusive_owner = true
    · simp [ho, hd, compare_exchange_strong, PthreadReadWriteLock.unlock]
    · simp [ho, hd]

/-- C10, as the code has it.  When the registry has an empty slot, `try_lock_sharable()`
returns, for every state of the lock and every answer of the liveness probe, as soon as
its registration loop is given fuel for one `insert`: after at most one recovery (at most
one forced `unlock()` of the mutex) and one final try-acquire it returns either true,
with one more shared hold and the caller in the first empty slot of the registry, or
false, with registry and shared holds untouched. -/
theorem try_lock_sharable_returns (stat : ProcFs) (pid fuel : Nat) (s : RobustLock)
    (hslot : 0 ∈ s.shared_owners) (hfuel : 1 ≤ fuel) :
    ∃ b s', RobustLock.try_lock_sharable stat pid fuel s = some (b, s') ∧
      s'.mutex_.unlocks ≤ s.mutex_.unlocks + 1 ∧
      s'.mutex_.shared_unlocks = s.mutex_.shared_unlocks ∧
      (b = true →
        s'.mutex_.writer = false ∧ s'.mutex_.readers = s.mutex_.readers + 1 ∧
        ∃ pre rest, (∀ x ∈ pre, x ≠ 0) ∧ s.shared_owners = pre ++ 0 :: rest ∧
          s'.shared_owners = pre ++ pid :: rest) ∧
      (b = false →
        s'.mutex_.writer = true ∧ s'.mutex_.readers = s.mutex_.readers ∧
        s'.shared_owners = s.shared_owners) := by
  obtain ⟨f, rfl⟩ : ∃ f, fuel = f + 1 := ⟨fuel - 1, by omega⟩
  obtain ⟨pre, rest, hpre, hset⟩ := first_empty s.shared_owners hslot
  cases hw : s.mutex_.writer with
  | false =>
    rw [try_lock_sharable_of_not_writer stat pid (f + 1) s hw, hset,
      insert_loop_first_empty pid f pre rest hpre]
    exact ⟨true, _, rfl, Nat.le_succ _, rfl, fun _ => ⟨hw, rfl, pre, rest, hpre, rfl, rfl⟩,
      fun h => Bool.noConfusion h⟩
  | true =>
    obtain ⟨hreg, hrd, hsu, hun⟩ := recover_sharable_frame stat s
    rw [try_lock_sharable_of_writer stat pid (f + 1) s hw]
    cases hw' : (RobustLock.recover_sharable stat s).mutex_.writer with
    | false =>
      rw [if_pos rfl, hreg, hset, insert_loop_first_empty pid f pre rest hpre]
      exact ⟨true, _, rfl, hun, hsu,
        fun _ => ⟨hw', by simp [hrd], pre, rest, hpre, rfl, rfl⟩, fun h => Bool.noConfusion h⟩
    | true =>
      rw [if_neg (by simp)]
      exact ⟨false, _, rfl, hun, hsu, fun h => Bool.noConfusion h,
        fun _ => ⟨hw', hrd, by rw [hreg, hset]⟩⟩

/-- C10 as amended, on a concrete lock: pid 100 is recorded as exclusive owner and is
dead, the registry has two empty slots, pid 9 calls `try_lock_sharable()`. -/
theorem try_lock_sharable_returns_witness :
    ∃ b s', RobustLock.try_lock_sharable (fun p => if p = 100 then ⟨-1, ENOENT⟩ else ⟨0, 0⟩)
        9 1 ⟨⟨true, 0, 0, 0⟩, 100, [0, 0]⟩ = some (b, s') ∧
      s'.mutex_.unlocks ≤ 0 + 1 ∧
      s'.mutex_.shared_unlocks = 0 ∧
      (b = true →
        s'.mutex_.writer = false ∧ s'.mutex_.readers = 0 + 1 ∧
        ∃ pre rest, (∀ x ∈ pre, x ≠ 0) ∧ [0, 0] = pre ++ 0 :: rest ∧
          s'.shared_owners = pre ++ 9 :: rest) ∧
      (b = false →
        s'.mutex_.writer = true ∧ s'.mutex_.readers = 0 ∧
        s'.shared_owners = [0, 0]) :=
  try_lock_sharable_returns (fun p => if p = 100 then ⟨-1, ENOENT⟩ else ⟨0, 0⟩) 9 1
    ⟨⟨true, 0, 0, 0⟩, 100, [0, 0]⟩ (by decide) (by decide)

/-- C10 as stated fails: pid 5 (alive) holds the shared lock of a lock whose registry has
a single slot; `try_lock_sharable()` by pid 9 wins the shared try-acquire and then never
gets out of its registration loop, whatever fuel it is given. -/
theorem try_lock_sharable_spins_on_full_registry :
    ¬ ∃ fuel, (RobustLock.try_lock_sharable (fun _ => ⟨0, 0⟩) 9 fuel
      ⟨⟨false, 1, 0, 0⟩, 0, [5]⟩).isSome = true := by
  rintro ⟨fuel, h⟩
  rw [try_lock_sharable_of_not_writer _ 9 fuel _ rfl, insert_loop_full 9 [5] (by decide) fuel] at h
  simp at h

/-! ## The blocking and the non-blocking exclusive acquire -/

/-- The first step of `lock()` on a free mutex. -/
theorem lock_succ_of_free (stat : ProcFs) (pid fuel : Nat) (s : RobustLock)
    (hw : s.mutex_.writer = false) (hr : s.mutex_.readers = 0) :
    RobustLock.lock stat pid (fuel + 1) s =
      some ⟨⟨{ s.mutex_ with writer := true }, pid, s.shared_owners⟩, 0, 0⟩ := by
  simp [RobustLock.lock, PthreadReadWriteLock.try_lock, hw, hr]

/-- The first step of `lock()` on a mutex that is held: the recovery block, then the
loop again, after a sleep unless this caller has just cleared a dead owner. -/
theorem lock_succ_of_held (stat : ProcFs) (pid fuel : Nat) (s : RobustLock)
    (h : ¬ (s.mutex_.writer = false ∧ s.mutex_.readers = 0)) :
    RobustLock.lock stat pid (fuel + 1) s =
      (RobustLock.lock stat pid fuel (RobustLock.recover_exclusive stat s).2).map
        (LockRun.next (!(RobustLock.recover_exclusive stat s).1)) := by
  have hs : RobustLock.recover_exclusive stat
      { mutex_ := s.mutex_, exclusive_owner := s.exclusive_owner,
        shared_owners := s.shared_owners } = RobustLock.recover_exclusive stat s := rfl
  simp only [RobustLock.lock, PthreadReadWriteLock.try_lock, h, if_false, hs]
  rcases hres : RobustLock.recover_exclusive stat s with ⟨b, s'⟩
  cases b <;> rfl

/-- The method `try_lock()` on a free mutex. -/
theorem try_lock_of_free (stat : ProcFs) (pid : Nat) (s : RobustLock)
    (hw : s.mutex_.writer = false) (hr : s.mutex_.readers = 0) :
    RobustLock.try_lock stat pid s =
      (true, ⟨{ s.mutex_ with writer := true }, pid, s.shared_owners⟩) := by
  simp [RobustLock.try_lock, PthreadReadWriteLock.try_lock, hw, hr]

/-- The method `try_lock()` on a mutex that is held: the recovery block, then the
second try-acquire. -/
theorem try_lock_of_held (stat : ProcFs) (pid : Nat) (s : RobustLock)
    (h : ¬ (s.mutex_.writer = false ∧ s.mutex_.readers = 0)) :
    RobustLock.try_lock stat pid s =
      if (RobustLock.recover_exclusive stat s).2.mutex_.writer = false ∧
          (RobustLock.recover_exclusive stat s).2.mutex_.readers = 0 then
        (true, ⟨{ (RobustLock.recover_exclusive stat s).2.mutex_ with writer := true }, pid,
          (RobustLock.recover_exclusive stat s).2.shared_owners⟩)
      else (false, (RobustLock.recover_exclusive stat s).2) := by
  have hs : RobustLock.recover_exclusive stat
      { mutex_ := s.mutex_, exclusive_owner := s.exclusive_owner,
        shared_owners := s.shared_owners } = RobustLock.recover_exclusive stat s := rfl
  simp only [RobustLock.try_lock, PthreadReadWriteLock.try_lock, h, if_false, hs]
  generalize (RobustLock.recover_exclusive stat s).2 = s'
  by_cases h' : s'.mutex_.writer = false ∧ s'.mutex_.readers = 0
  · simp [h']
  · simp [h']

theorem lock_returns_holding (stat : ProcFs) (Q : Nat) :
    ∀ (fuel : Nat) (s : RobustLock) (r : LockRun), RobustLock.lock stat Q fuel s = some r →
      r.state.exclusive_owner = Q ∧ r.state.mutex_.writer = true ∧
      r.state.mutex_.readers = 0 := by
  intro fuel
  induction fuel with
  | zero => intro s r h; simp [RobustLock.lock] at h
  | succ fuel ih =>
    intro s r h
    by_cases hfree : s.mutex_.writer = false ∧ s.mutex_.readers = 0
    · rw [lock_succ_of_free stat Q fuel s hfree.1 hfree.2] at h
      cases h
      exact ⟨rfl, rfl, hfree.2⟩
    · rw [lock_succ_of_held stat Q fuel s hfree, Option.map_eq_some'] at h
      obtain ⟨r', hr', rfl⟩ := h
      exact ih _ r' hr'

theorem mutex_try_lock_of_held (m : PthreadReadWriteLock)
    (h : ¬ (m.writer = false ∧ m.readers = 0)) : m.try_lock = (false, m) := by
  simp only [PthreadReadWriteLock.try_lock, h, if_false]

theorem mutex_try_lock_of_free (m : PthreadReadWriteLock)
    (hw : m.writer = false) (hr : m.readers = 0) :
    m.try_lock = (true, { m with writer := true }) := by
  simp [PthreadReadWriteLock.try_lock, hw, hr]

/-- A `lock()` that returns has returned from a try-acquire it won: the try-acquires
before the last all failed, the last one found the mutex free, and the state on return
is that free lock with the exclusive hold taken and the caller recorded. -/
theorem lock_returns_from_won_acquire (stat : ProcFs) (Q : Nat) :
    ∀ (fuel : Nat) (s : RobustLock) (r : LockRun), RobustLock.lock stat Q fuel s = some r →
      r.iterations < fuel ∧
      (∀ j, j < r.iterations →
        (RobustLock.after_recoveries stat j s).mutex_.try_lock =
          (false, (RobustLock.after_recoveries stat j s).mutex_)) ∧
      (RobustLock.after_recoveries stat r.iterations s).mutex_.writer = false ∧
      (RobustLock.after_recoveries stat r.iterations s).mutex_.readers = 0 ∧
      (RobustLock.after_recoveries stat r.iterations s).mutex_.try_lock =
        (true, r.state.mutex_) ∧
      r.state =
        ⟨{ (RobustLock.after_recoveries stat r.iterations s).mutex_ with writer := true }, Q,
          (RobustLock.after_recoveries stat r.iterations s).shared_owners⟩ := by
  intro fuel
  induction fuel with
  | zero => intro s r h; simp [RobustLock.lock] at h
  | succ fuel ih =>
    intro s r h
    by_cases hfree : s.mutex_.writer = false ∧ s.mutex_.readers = 0
    · rw [lock_succ_of_free stat Q fuel s hfree.1 hfree.2] at h
      cases h
      exact ⟨Nat.succ_pos fuel, fun j hj => absurd hj (Nat.not_lt_zero j), hfree.1, hfree.2,
        mutex_try_lock_of_free s.mutex_ hfree.1 hfree.2, rfl⟩
    · rw [lock_succ_of_held stat Q fuel s hfree, Option.map_eq_some'] at h
      obtain ⟨r', hr', rfl⟩ := h
      obtain ⟨h1, h2, h3, h4, h5, h6⟩ := ih _ r' hr'
      refine ⟨Nat.succ_lt_succ h1, ?_, h3, h4, h5, h6⟩
      intro j hj
      cases j with
      | zero => exact mutex_try_lock_of_held s.mutex_ hfree
      | succ j => exact h2 j (Nat.lt_of_succ_lt_succ hj)

/-- Within its first `fuel` try-acquires `lock()` has not returned exactly when every one
of them found the mutex held. -/
theorem lock_eq_none_iff (stat : ProcFs) (Q : Nat) :
    ∀ (fuel : Nat) (s : RobustLock),
      RobustLock.lock stat Q fuel s = none ↔
        ∀ j, j < fuel →
          ¬ ((RobustLock.after_recoveries stat j s).mutex_.writer = false ∧
            (RobustLock.after_recoveries stat j s).mutex_.readers = 0) := by
  intro fuel
  induction fuel with
  | zero => intro s; exact ⟨fun _ j hj => absurd hj (Nat.not_lt_zero j), fun _ => rfl⟩
  | succ fuel ih =>
    intro s
    by_cases hfree : s.mutex_.writer = false ∧ s.mutex_.readers = 0
    · rw [lock_succ_of_free stat Q fuel s hfree.1 hfree.2]
      exact ⟨fun h => Option.noConfusion h, fun h => absurd hfree (h 0 (Nat.succ_pos fuel))⟩
    · rw [lock_succ_of_held stat Q fuel s hfree, Option.map_eq_none', ih]
      constructor
      · intro h j hj
        cases j with
        | zero => exact hfree
        | succ j => exact h j (Nat.lt_of_succ_lt_succ hj)
      · intro h j hj
        exact h (j + 1) (Nat.succ_lt_succ hj)

/-- While a live process is recorded as owner of an exclusively held mutex, the recovery
block of `lock` changes nothing, however often it runs. -/
theorem after_recoveries_live_writer (stat : ProcFs) (s : RobustLock)
    (howner : s.exclusive_owner ≠ 0) (hlive : proc_dead stat s.exclusive_owner = false) :
    ∀ j, RobustLock.after_recoveries stat j s = s := by
  have hrec : RobustLock.recover_exclusive stat s = (false, s) := by
    simp [RobustLock.recover_exclusive, howner, hlive]
  intro j
  induction j with
  | zero => rfl
  | succ j ih => simp only [RobustLock.after_recoveries, hrec, ih]

/-- C11 (`lock()` returns only on success).  Whatever the starting state and the answers
of the liveness probe:
a `lock()` by `Q` that returns has returned from a try-acquire that `Q` won: every
try-acquire before its last failed, the last found the mutex free (after that many runs
of the recovery block), and the state on return is exactly that free lock with the
exclusive hold taken by this try-acquire and `exclusive_owner == Q`;
without a try-acquire that finds the mutex free there is no return: `lock()` has not
returned within its first `fuel` try-acquires exactly when each of them found the mutex
held, and on a mutex exclusively held for a live recorded owner it does not return for
any fuel;
and on a free mutex it does return, after its first try-acquire: the loop body never
runs, nothing sleeps, no release is made and the registry is as before. -/
theorem lock_returns_only_on_success (stat : ProcFs) (Q : Nat) (s : RobustLock) :
    (∀ fuel r, RobustLock.lock stat Q fuel s = some r →
      r.state.exclusive_owner = Q ∧ r.state.mutex_.writer = true ∧
      r.state.mutex_.readers = 0 ∧
      r.iterations < fuel ∧
      (∀ j, j < r.iterations →
        (RobustLock.after_recoveries stat j s).mutex_.try_lock =
          (false, (RobustLock.after_recoveries stat j s).mutex_)) ∧
      (RobustLock.after_recoveries stat r.iterations s).mutex_.writer = false ∧
      (RobustLock.after_recoveries stat r.iterations s).mutex_.readers = 0 ∧
      (RobustLock.after_recoveries stat r.iterations s).mutex_.try_lock =
        (true, r.state.mutex_) ∧
      r.state =
        ⟨{ (RobustLock.after_recoveries stat r.iterations s).mutex_ with writer := true }, Q,
          (RobustLock.after_recoveries stat r.iterations s).shared_owners⟩) ∧
    (∀ fuel, RobustLock.lock stat Q fuel s = none ↔
      ∀ j, j < fuel →
        (RobustLock.after_recoveries stat j s).mutex_.try_lock =
          (false, (RobustLock.after_recoveries stat j s).mutex_)) ∧
    (s.mutex_.writer = true → s.exclusive_owner ≠ 0 →
      proc_dead stat s.exclusive_owner = false →
      ∀ fuel, RobustLock.lock stat Q fuel s = none) ∧
    (s.mutex_.writer = false → s.mutex_.readers = 0 → ∀ fuel, 1 ≤ fuel →
      ∃ r, RobustLock.lock stat Q fuel s = some r ∧
        r.iterations = 0 ∧ r.sleeps = 0 ∧
        r.state.shared_owners = s.shared_owners ∧
        r.state.mutex_.unlocks = s.mutex_.unlocks ∧
        r.state.mutex_.shared_unlocks = s.mutex_.shared_unlocks ∧
        r.state.exclusive_owner = Q ∧ r.state.mutex_.writer = true ∧
        r.state.mutex_.readers = 0) := by
  have hfails : ∀ m : PthreadReadWriteLock,
      m.try_lock = (false, m) ↔ ¬ (m.writer = false ∧ m.readers = 0) := by
    intro m
    constructor
    · intro h hfree
      rw [mutex_try_lock_of_free m hfree.1 hfree.2] at h
      exact Bool.noConfusion (Prod.mk.inj h).1
    · exact mutex_try_lock_of_held m
  refine ⟨fun fuel r h => ?_, fun fuel => ?_, fun hw howner hlive fuel => ?_, ?_⟩
  · obtain ⟨a1, a2, a3⟩ := lock_returns_holding stat Q fuel s r h
    exact ⟨a1, a2, a3, lock_returns_from_won_acquire stat Q fuel s r h⟩
  · rw [lock_eq_none_iff stat Q fuel s]
    exact ⟨fun h j hj => (hfails _).mpr (h j hj), fun h j hj => (hfails _).mp (h j hj)⟩
  · rw [lock_eq_none_iff stat Q fuel s]
    intro j _
    rw [after_recoveries_live_writer stat s howner hlive j]
    simp [hw]
  · intro hw hr fuel hfuel
    obtain ⟨f, rfl⟩ : ∃ f, fuel = f + 1 := ⟨fuel - 1, by omega⟩
    exact ⟨_, lock_succ_of_free stat Q f s hw hr, rfl, rfl, rfl, rfl, rfl, rfl, rfl, hr⟩

/-- C11 on three concrete locks: pid 200 calls `lock()` on a lock left by the dead pid 100
(its first try-acquire fails, it wins the second and returns holding the lock), on a
lock held by the live pid 100 (it does not return), and on a default-constructed lock
(it returns at the first try-acquire). -/
theorem lock_returns_only_on_success_witness :
    (∃ r, RobustLock.lock (fun p => if p = 100 then ⟨-1, ENOENT⟩ else ⟨0, 0⟩) 200 5
        ⟨⟨true, 0, 0, 0⟩, 100, [0, 0]⟩ = some r ∧
      r.state.exclusive_owner = 200 ∧ r.state.mutex_.writer = true ∧
      r.state.mutex_.readers = 0 ∧
      r.iterations < 5 ∧
      (∀ j, j < r.iterations →
        (RobustLock.after_recoveries (fun p => if p = 100 then ⟨-1, ENOENT⟩ else ⟨0, 0⟩) j
          ⟨⟨true, 0, 0, 0⟩, 100, [0, 0]⟩).mutex_.try_lock =
          (false, (RobustLock.after_recoveries
            (fun p => if p = 100 then ⟨-1, ENOENT⟩ else ⟨0, 0⟩) j
            ⟨⟨true, 0, 0, 0⟩, 100, [0, 0]⟩).mutex_)) ∧
      (RobustLock.after_recoveries (fun p => if p = 100 then ⟨-1, ENOENT⟩ else ⟨0, 0⟩)
        r.iterations ⟨⟨true, 0, 0, 0⟩, 100, [0, 0]⟩).mutex_.writer = false ∧
      (RobustLock.after_recoveries (fun p => if p = 100 then ⟨-1, ENOENT⟩ else ⟨0, 0⟩)
        r.iterations ⟨⟨true, 0, 0, 0⟩, 100, [0, 0]⟩).mutex_.readers = 0 ∧
      (RobustLock.after_recoveries (fun p => if p = 100 then ⟨-1, ENOENT⟩ else ⟨0, 0⟩)
        r.iterations ⟨⟨true, 0, 0, 0⟩, 100, [0, 0]⟩).mutex_.try_lock =
        (true, r.state.mutex_) ∧
      r.state =
        ⟨{ (RobustLock.after_recoveries (fun p => if p = 100 then ⟨-1, ENOENT⟩ else ⟨0, 0⟩)
              r.iterations ⟨⟨true, 0, 0, 0⟩, 100, [0, 0]⟩).mutex_ with writer := true }, 200,
          (RobustLock.after_recoveries (fun p => if p = 100 then ⟨-1, ENOENT⟩ else ⟨0, 0⟩)
            r.iterations ⟨⟨true, 0, 0, 0⟩, 100, [0, 0]⟩).shared_owners⟩) ∧
    (∀ fuel, RobustLock.lock (fun _ => ⟨0, 0⟩) 200 fuel
      ⟨⟨true, 0, 0, 0⟩, 100, [0, 0]⟩ = none) ∧
    (∃ r, RobustLock.lock (fun _ => ⟨0, 0⟩) 200 1 (RobustLock.init 2) = some r ∧
      r.iterations = 0 ∧ r.sleeps = 0 ∧
      r.state.shared_owners = (RobustLock.init 2).shared_owners ∧
      r.state.mutex_.unlocks = (RobustLock.init 2).mutex_.unlocks ∧
      r.state.mutex_.shared_unlocks = (RobustLock.init 2).mutex_.shared_unlocks ∧
      r.state.exclusive_owner = 200 ∧ r.state.mutex_.writer = true ∧
      r.state.mutex_.readers = 0) :=
  ⟨⟨⟨⟨⟨true, 0, 1, 0⟩, 200, [0, 0]⟩, 1, 0⟩, by decide,
      (lock_returns_only_on_success (fun p => if p = 100 then ⟨-1, ENOENT⟩ else ⟨0, 0⟩) 200
        ⟨⟨true, 0, 0, 0⟩, 100, [0, 0]⟩).1 5 _ (by decide)⟩,
    (lock_returns_only_on_success (fun _ => ⟨0, 0⟩) 200
      ⟨⟨true, 0, 0, 0⟩, 100, [0, 0]⟩).2.2.1 rfl (by decide) (by decide),
    (lock_returns_only_on_success (fun _ => ⟨0, 0⟩) 200 (RobustLock.init 2)).2.2.2
      rfl rfl 1 (by decide)⟩

/-- C12 (`try_lock()` is `lock()` cut off after one recovery round).  For every state,
caller and answers of the liveness probe: if `try_lock()` returns true, `lock()` from the
same state returns as soon as it has fuel for two try-acquires, with exactly the state
`try_lock()` leaves; if `try_lock()` returns false, `lock()` from the same state has not
returned after two try-acquires. -/
theorem try_lock_is_lock_cut_off (stat : ProcFs) (pid : Nat) (s : RobustLock) :
    ((RobustLock.try_lock stat pid s).1 = true → ∀ fuel, 2 ≤ fuel →
      ∃ r, RobustLock.lock stat pid fuel s = some r ∧
        r.state = (RobustLock.try_lock stat pid s).2 ∧ r.iterations ≤ 1) ∧
    ((RobustLock.try_lock stat pid s).1 = false → ∀ fuel, fuel ≤ 2 →
      RobustLock.lock stat pid fuel s = none) := by
  by_cases hfree : s.mutex_.writer = false ∧ s.mutex_.readers = 0
  · rw [try_lock_of_free stat pid s hfree.1 hfree.2]
    refine ⟨fun _ fuel hfuel => ?_, fun h => Bool.noConfusion h⟩
    obtain ⟨f, rfl⟩ : ∃ f, fuel = f + 1 := ⟨fuel - 1, by omega⟩
    exact ⟨_, lock_succ_of_free stat pid f s hfree.1 hfree.2, rfl, Nat.zero_le _⟩
  · rw [try_lock_of_held stat pid s hfree]
    by_cases hfree' : (RobustLock.recover_exclusive stat s).2.mutex_.writer = false ∧
        (RobustLock.recover_exclusive stat s).2.mutex_.readers = 0
    · rw [if_pos hfree']
      refine ⟨fun _ fuel hfuel => ?_, fun h => Bool.noConfusion h⟩
      obtain ⟨f, rfl⟩ : ∃ f, fuel = f + 2 := ⟨fuel - 2, by omega⟩
      rw [lock_succ_of_held stat pid (f + 1) s hfree,
        lock_succ_of_free stat pid f _ hfree'.1 hfree'.2]
      exact ⟨_, rfl, rfl, Nat.le_refl _⟩
    · rw [if_neg hfree']
      refine ⟨fun h => Bool.noConfusion h, fun _ fuel hfuel => ?_⟩
      match fuel, hfuel with
      | 0, _ => rfl
      | 1, _ =>
        rw [lock_succ_of_held stat pid 0 s hfree]
        rfl
      | 2, _ =>
        rw [lock_succ_of_held stat pid 1 s hfree, lock_succ_of_held stat pid 0 _ hfree']
        rfl

/-- C12 on two concrete locks: `try_lock()` by pid 200 succeeds on a lock left by the dead
pid 100, and fails on a lock held by the live pid 100. -/
theorem try_lock_is_lock_cut_off_witness :
    (∃ r, RobustLock.lock (fun p => if p = 100 then ⟨-1, ENOENT⟩ else ⟨0, 0⟩) 200 2
        ⟨⟨true, 0, 0, 0⟩, 100, [0, 0]⟩ = some r ∧
      r.state = (RobustLock.try_lock (fun p => if p = 100 then ⟨-1, ENOENT⟩ else ⟨0, 0⟩) 200
        ⟨⟨true, 0, 0, 0⟩, 100, [0, 0]⟩).2 ∧ r.iterations ≤ 1) ∧
    RobustLock.lock (fun _ => ⟨0, 0⟩) 200 2 ⟨⟨true, 0, 0, 0⟩, 100, [0, 0]⟩ = none :=
  ⟨(try_lock_is_lock_cut_off (fun p => if p = 100 then ⟨-1, ENOENT⟩ else ⟨0, 0⟩) 200
      ⟨⟨true, 0, 0, 0⟩, 100, [0, 0]⟩).1 (by decide) 2 (by decide),
    (try_lock_is_lock_cut_off (fun _ => ⟨0, 0⟩) 200
      ⟨⟨true, 0, 0, 0⟩, 100, [0, 0]⟩).2 (by decide) 2 (by decide)⟩

/-! ## The invariants of the data model -/

/-- Every state reachable under any behaviour of the liveness probe is consistent. -/
theorem reachable_any_probe_consistent (capacity : Nat) (s : RobustLock)
    (h : ReachableAnyProbe capacity s) : s.consistent := by
  induction h with
  | init => exact consistent_init capacity
  | lock stat _ _ hrun ih => exact consistent_lock stat _ _ _ _ ih hrun
  | try_lock stat _ _ ih => exact consistent_try_lock stat _ _ ih
  | unlock _ _ ih => exact consistent_unlock _ _ ih
  | lock_sharable stat _ hpid hrun ih => exact consistent_lock_sharable stat _ hpid _ _ _ ih hrun
  | try_lock_sharable stat _ hpid hrun ih =>
    exact consistent_try_lock_sharable stat _ _ hpid _ _ _ ih hrun
  | unlock_sharable _ hpid ih => exact consistent_unlock_sharable _ hpid _ ih

/-- A state reached by live callers while processes die is in particular reached under
some behaviour of the liveness probe. -/
theorem reachable_any_probe_of_reachable (capacity : Nat) (stat : ProcFs) (s : RobustLock)
    (h : Reachable capacity stat s) : ReachableAnyProbe capacity s := by
  induction h with
  | init stat => exact ReachableAnyProbe.init
  | death _ _ ih => exact ih
  | lock _ hpid _ hrun ih => exact ReachableAnyProbe.lock _ ih hpid hrun
  | try_lock _ hpid _ ih => exact ReachableAnyProbe.try_lock _ ih hpid
  | unlock _ hpid _ ih => exact ReachableAnyProbe.unlock ih hpid
  | lock_sharable _ hpid _ hrun ih => exact ReachableAnyProbe.lock_sharable _ ih hpid hrun
  | try_lock_sharable _ hpid _ hrun ih =>
    exact ReachableAnyProbe.try_lock_sharable _ ih hpid hrun
  | unlock_sharable _ hpid _ ih => exact ReachableAnyProbe.unlock_sharable ih hpid

theorem all_zero_of_occupied_zero :
    ∀ set : LocklessSet, LocklessSet.occupied set = 0 → ∀ x ∈ set, x = 0 := by
  intro set h x hx
  by_contra hne
  have := occupied_pos_of_mem set x hx hne
  omega

/-- C13 (invariant I1).  In every state reachable from a default-constructed lock by the
six public operations, each run to its end by any non-zero pid, whatever the liveness
probe answers in between (so also across process deaths): a non-zero `exclusive_owner`
implies that the mutex is exclusively held, with no shared hold beside the exclusive one,
and that `shared_owners` is empty. -/
theorem invariant_exclusive_owner (capacity : Nat) (s : RobustLock)
    (hreach : ReachableAnyProbe capacity s) (howner : s.exclusive_owner ≠ 0) :
    s.mutex_.writer = true ∧ s.mutex_.readers = 0 ∧
    s.shared_owners.occupied = 0 ∧ ∀ x ∈ s.shared_owners, x = 0 := by
  obtain ⟨h1, h2, h3⟩ := reachable_any_probe_consistent capacity s hreach
  have hw := h1 howner
  have hr := h2 hw
  have hocc : s.shared_owners.occupied = 0 := by omega
  exact ⟨hw, hr, hocc, all_zero_of_occupied_zero s.shared_owners hocc⟩

/-- A state reached under a probe that changes its mind: pids 5 and 6 take and give back
the shared lock of a default-constructed lock with two registry slots, then pid 7 takes
the exclusive lock. -/
theorem reachable_any_probe_writer :
    ReachableAnyProbe 2 ⟨⟨true, 0, 0, 2⟩, 7, [0, 0]⟩ := by
  have h0 : ReachableAnyProbe 2 (RobustLock.init 2) := ReachableAnyProbe.init
  have h1 : ReachableAnyProbe 2 ⟨⟨false, 1, 0, 0⟩, 0, [5, 0]⟩ :=
    @ReachableAnyProbe.lock_sharable 2 _ 5 1 ⟨⟨⟨false, 1, 0, 0⟩, 0, [5, 0]⟩, 0, 0⟩
      (fun _ => ⟨0, 0⟩) h0 (by decide) (by decide)
  have h2 : ReachableAnyProbe 2 ⟨⟨false, 2, 0, 0⟩, 0, [5, 6]⟩ :=
    @ReachableAnyProbe.try_lock_sharable 2 _ _ 6 1 true
      (fun _ => ⟨0, 0⟩) h1 (by decide) (by decide)
  have h3 : ReachableAnyProbe 2 ⟨⟨false, 1, 0, 1⟩, 0, [0, 6]⟩ :=
    @ReachableAnyProbe.unlock_sharable 2 _ 5 h2 (by decide)
  have h4 : ReachableAnyProbe 2 ⟨⟨false, 0, 0, 2⟩, 0, [0, 0]⟩ :=
    @ReachableAnyProbe.unlock_sharable 2 _ 6 h3 (by decide)
  exact @ReachableAnyProbe.lock 2 _ 7 1 ⟨⟨⟨true, 0, 0, 2⟩, 7, [0, 0]⟩, 0, 0⟩
    (fun _ => ⟨-1, ENOENT⟩) h4 (by decide) (by decide)

/-- C13 on a concrete reachable state, with pid 7 recorded as exclusive owner. -/
theorem invariant_exclusive_owner_witness :
    (⟨⟨true, 0, 0, 2⟩, 7, [0, 0]⟩ : RobustLock).mutex_.writer = true ∧
    (⟨⟨true, 0, 0, 2⟩, 7, [0, 0]⟩ : RobustLock).mutex_.readers = 0 ∧
    (⟨⟨true, 0, 0, 2⟩, 7, [0, 0]⟩ : RobustLock).shared_owners.occupied = 0 ∧
    ∀ x ∈ (⟨⟨true, 0, 0, 2⟩, 7, [0, 0]⟩ : RobustLock).shared_owners, x = 0 :=
  invariant_exclusive_owner 2 ⟨⟨true, 0, 0, 2⟩, 7, [0, 0]⟩ reachable_any_probe_writer
    (by decide)

theorem backed_lock_sharable (stat : ProcFs) (pid : Nat) (hpid : pid ≠ 0) :
    ∀ (fuel : Nat) (s : RobustLock) (r : LockRun),
      s.shared_owners.occupied = s.mutex_.readers →
      RobustLock.lock_sharable stat pid fuel s = some r →
      r.state.shared_owners.occupied = r.state.mutex_.readers := by
  intro fuel
  induction fuel with
  | zero => intro s r _ h; simp [RobustLock.lock_sharable] at h
  | succ fuel ih =>
    intro s r hs h
    cases hw : s.mutex_.writer with
    | false =>
      rw [lock_sharable_succ_of_not_writer stat pid fuel s hw, Option.map_eq_some'] at h
      obtain ⟨set, hset, rfl⟩ := h
      have := insert_loop_occupied pid hpid (fuel + 1) s.shared_owners set hset
      show LocklessSet.occupied set = s.mutex_.readers + 1
      omega
    | true =>
      rw [lock_sharable_succ_of_writer stat pid fuel s hw, Option.map_eq_some'] at h
      obtain ⟨r', hr', rfl⟩ := h
      obtain ⟨hreg, hrd, -, -⟩ := recover_sharable_frame stat s
      exact ih _ r' (by rw [hreg, hrd]; exact hs) hr'

theorem backed_try_lock_sharable (stat : ProcFs) (pid fuel : Nat) (hpid : pid ≠ 0)
    (s s' : RobustLock) (b : Bool) (hs : s.shared_owners.occupied = s.mutex_.readers)
    (h : RobustLock.try_lock_sharable stat pid fuel s = some (b, s')) :
    s'.shared_owners.occupied = s'.mutex_.readers := by
  obtain ⟨hreg, hrd, -, -⟩ := recover_sharable_frame stat s
  cases hw : s.mutex_.writer with
  | false =>
    rw [try_lock_sharable_of_not_writer stat pid fuel s hw, Option.map_eq_some'] at h
    obtain ⟨set, hset, heq⟩ := h
    rw [← (Prod.mk.inj heq).2]
    have := insert_loop_occupied pid hpid fuel s.shared_owners set hset
    show LocklessSet.occupied set = s.mutex_.readers + 1
    omega
  | true =>
    rw [try_lock_sharable_of_writer stat pid fuel s hw] at h
    by_cases hw' : (RobustLock.recover_sharable stat s).mutex_.writer = false
    · rw [if_pos hw', Option.map_eq_some'] at h
      obtain ⟨set, hset, heq⟩ := h
      rw [← (Prod.mk.inj heq).2]
      have := insert_loop_occupied pid hpid fuel _ set hset
      show LocklessSet.occupied set = (RobustLock.recover_sharable stat s).mutex_.readers + 1
      rw [hreg] at this
      omega
    · rw [if_neg hw'] at h
      rw [← (Prod.mk.inj (Option.some.inj h)).2, hreg, hrd]
      exact hs

theorem backed_unlock_sharable (pid : Nat) (hpid : pid ≠ 0) (s : RobustLock)
    (hs : s.shared_owners.occupied = s.mutex_.readers) :
    (RobustLock.unlock_sharable pid s).shared_owners.occupied =
      (RobustLock.unlock_sharable pid s).mutex_.readers := by
  have hrem := remove_occupied pid hpid s.shared_owners
  unfold RobustLock.unlock_sharable
  rcases hres : LocklessSet.remove pid s.shared_owners with ⟨b, set⟩
  rw [hres] at hrem
  cases b with
  | true =>
    have := hrem.1 rfl
    simp only at this
    show LocklessSet.occupied set = s.mutex_.readers - 1
    omega
  | false =>
    have hsame : set = s.shared_owners := hrem.2 rfl
    subst hsame
    exact hs

theorem backed_prune_readers (stat : ProcFs) (s : RobustLock)
    (hs : s.shared_owners.occupied = s.mutex_.readers) :
    (RobustLock.prune_readers stat s).shared_owners.occupied =
      (RobustLock.prune_readers stat s).mutex_.readers := by
  rw [prune_readers_eq]
  have := occupied_clear_dead stat s.shared_owners
  simp only
  omega

/-- C14 (invariant I2).  In every state reachable from a default-constructed lock by the
six public operations, each run to its end by a non-zero pid, whatever the liveness probe
answers in between, the occupied slots of `shared_owners` are as many as the shared holds
outstanding on the mutex; and from any state in which the two numbers agree,
`lock_sharable`, `try_lock_sharable`, `unlock_sharable` (by a non-zero pid) and
`prune_readers` each lead to a state in which they agree again. -/
theorem invariant_shared_holds :
    (∀ (capacity : Nat) (s : RobustLock), ReachableAnyProbe capacity s →
      s.shared_owners.occupied = s.mutex_.readers) ∧
    (∀ (stat : ProcFs) (pid fuel : Nat) (s : RobustLock), pid ≠ 0 →
      s.shared_owners.occupied = s.mutex_.readers →
      (∀ r, RobustLock.lock_sharable stat pid fuel s = some r →
        r.state.shared_owners.occupied = r.state.mutex_.readers) ∧
      (∀ b s', RobustLock.try_lock_sharable stat pid fuel s = some (b, s') →
        s'.shared_owners.occupied = s'.mutex_.readers) ∧
      (RobustLock.unlock_sharable pid s).shared_owners.occupied =
        (RobustLock.unlock_sharable pid s).mutex_.readers ∧
      (RobustLock.prune_readers stat s).shared_owners.occupied =
        (RobustLock.prune_readers stat s).mutex_.readers) := by
  refine ⟨fun capacity s h => (reachable_any_probe_consistent capacity s h).2.2.symm, ?_⟩
  intro stat pid fuel s hpid hs
  exact ⟨fun r h => backed_lock_sharable stat pid hpid fuel s r hs h,
    fun b s' h => backed_try_lock_sharable stat pid fuel hpid s s' b hs h,
    backed_unlock_sharable pid hpid s hs, backed_prune_readers stat s hs⟩

/-- C14 on concrete states: the reachable state in which pid 7 holds the exclusive lock,
and the four operations run on a lock with readers 5 (alive) and 6 (dead). -/
theorem invariant_shared_holds_witness :
    (⟨⟨true, 0, 0, 2⟩, 7, [0, 0]⟩ : RobustLock).shared_owners.occupied =
      (⟨⟨true, 0, 0, 2⟩, 7, [0, 0]⟩ : RobustLock).mutex_.readers ∧
    (⟨⟨false, 3, 0, 0⟩, 0, [5, 6, 9]⟩ : RobustLock).shared_owners.occupied =
      (⟨⟨false, 3, 0, 0⟩, 0, [5, 6, 9]⟩ : RobustLock).mutex_.readers ∧
    (RobustLock.unlock_sharable 5 ⟨⟨false, 2, 0, 0⟩, 0, [5, 6, 0]⟩).shared_owners.occupied =
      (RobustLock.unlock_sharable 5 ⟨⟨false, 2, 0, 0⟩, 0, [5, 6, 0]⟩).mutex_.readers ∧
    (RobustLock.prune_readers (fun p => if p = 6 then ⟨-1, ENOENT⟩ else ⟨0, 0⟩)
        ⟨⟨false, 2, 0, 0⟩, 0, [5, 6, 0]⟩).shared_owners.occupied =
      (RobustLock.prune_readers (fun p => if p = 6 then ⟨-1, ENOENT⟩ else ⟨0, 0⟩)
        ⟨⟨false, 2, 0, 0⟩, 0, [5, 6, 0]⟩).mutex_.readers :=
  ⟨invariant_shared_holds.1 2 _ reachable_any_probe_writer,
    (invariant_shared_holds.2 (fun p => if p = 6 then ⟨-1, ENOENT⟩ else ⟨0, 0⟩) 9 1
      ⟨⟨false, 2, 0, 0⟩, 0, [5, 6, 0]⟩ (by decide) (by decide)).1
      ⟨⟨⟨false, 3, 0, 0⟩, 0, [5, 6, 9]⟩, 0, 0⟩ (by decide),
    (invariant_shared_holds.2 (fun p => if p = 6 then ⟨-1, ENOENT⟩ else ⟨0, 0⟩) 5 1
      ⟨⟨false, 2, 0, 0⟩, 0, [5, 6, 0]⟩ (by decide) (by decide)).2.2.1,
    (invariant_shared_holds.2 (fun p => if p = 6 then ⟨-1, ENOENT⟩ else ⟨0, 0⟩) 5 1
      ⟨⟨false, 2, 0, 0⟩, 0, [5, 6, 0]⟩ (by decide) (by decide)).2.2.2⟩

/-! ## Teardown, the liveness helper and reader pruning -/

/-- C16 (destruction).  The destructor sets `exclusive_owner` to `0` and touches neither
the underlying mutex nor the registry: whatever holds were outstanding on the mutex
before (exclusive or shared) are outstanding after, and no release has been made. -/
theorem destroy_clears_owner_only (s : RobustLock) :
    (RobustLock.destroy s).exclusive_owner = 0 ∧
    (RobustLock.destroy s).mutex_ = s.mutex_ ∧
    (RobustLock.destroy s).shared_owners = s.shared_owners ∧
    ((RobustLock.destroy s).mutex_.writer = true ↔ s.mutex_.writer = true) ∧
    (RobustLock.destroy s).mutex_.readers = s.mutex_.readers :=
  ⟨rfl, rfl, rfl, Iff.rfl, rfl⟩

/-- C17 (liveness oracle).  Whatever `stat` does on the file system, `proc_dead(0)` is
false, and for a non-zero pid `proc_dead(pid)` is true exactly when `stat` on the path
`/proc/<pid>` returns `-1` with `errno == ENOENT`; in particular a probe that fails with
another `errno`, or succeeds, reports "not dead". -/
theorem proc_dead_iff_no_entry (stat_call : String → StatResult) :
    proc_dead (ProcFs.of_stat stat_call) 0 = false ∧
    ∀ pid, pid ≠ 0 →
      (proc_dead (ProcFs.of_stat stat_call) pid = true ↔
        (stat_call ("/proc/" ++ toString pid)).ret = -1 ∧
        (stat_call ("/proc/" ++ toString pid)).errno = ENOENT) ∧
      ((stat_call ("/proc/" ++ toString pid)).ret = -1 →
        (stat_call ("/proc/" ++ toString pid)).errno ≠ ENOENT →
        proc_dead (ProcFs.of_stat stat_call) pid = false) ∧
      ((stat_call ("/proc/" ++ toString pid)).ret ≠ -1 →
        proc_dead (ProcFs.of_stat stat_call) pid = false) := by
  refine ⟨proc_dead_zero _, fun pid hpid => ⟨?_, ?_, ?_⟩⟩
  · simp [proc_dead, ProcFs.of_stat, pid_path, hpid]
  · intro _ herr
    simp [proc_dead, ProcFs.of_stat, pid_path, hpid, herr]
  · intro hret
    simp [proc_dead, ProcFs.of_stat, pid_path, hpid, hret]

/-- C17 on a concrete file system, in which only `/proc/100` is missing and `stat` on
`/proc/101` fails with `EACCES` (13): pid 100 is dead, pids 101 and 102 are not. -/
theorem proc_dead_iff_no_entry_witness :
    proc_dead (ProcFs.of_stat (fun path =>
      if path = "/proc/100" then ⟨-1, ENOENT⟩
      else if path = "/proc/101" then ⟨-1, 13⟩ else ⟨0, 0⟩)) 100 = true ∧
    proc_dead (ProcFs.of_stat (fun path =>
      if path = "/proc/100" then ⟨-1, ENOENT⟩
      else if path = "/proc/101" then ⟨-1, 13⟩ else ⟨0, 0⟩)) 101 = false ∧
    proc_dead (ProcFs.of_stat (fun path =>
      if path = "/proc/100" then ⟨-1, ENOENT⟩
      else if path = "/proc/101" then ⟨-1, 13⟩ else ⟨0, 0⟩)) 102 = false :=
  ⟨((proc_dead_iff_no_entry _).2 100 (by decide)).1.mpr (by decide),
    ((proc_dead_iff_no_entry _).2 101 (by decide)).2.1 (by decide) (by decide),
    ((proc_dead_iff_no_entry _).2 102 (by decide)).2.2 (by decide)⟩

/-- C18 (`prune_readers`).  For every registry content and every answer of the liveness
probe: after `prune_readers` no slot holds a dead pid; a slot that held a dead pid is
empty and every other slot (a live pid, or empty) is as before, the registry keeping its
length; `exclusive_owner` and the exclusive side of the mutex are unchanged; and the
number of `unlock_sharable()` calls made on the mutex equals the number of slots
cleared, one shared hold being given back for each as long as one is outstanding. -/
theorem prune_readers_reaps_dead (stat : ProcFs) (s : RobustLock) :
    (∀ x ∈ (RobustLock.prune_readers stat s).shared_owners, proc_dead stat x = false) ∧
    (RobustLock.prune_readers stat s).shared_owners =
      s.shared_owners.map (fun v => if proc_dead stat v then 0 else v) ∧
    (RobustLock.prune_readers stat s).shared_owners.length = s.shared_owners.length ∧
    (∀ i, proc_dead stat (s.shared_owners.getD i 0) = false →
      (RobustLock.prune_readers stat s).shared_owners.getD i 0 = s.shared_owners.getD i 0) ∧
    (RobustLock.prune_readers stat s).exclusive_owner = s.exclusive_owner ∧
    (RobustLock.prune_readers stat s).mutex_.writer = s.mutex_.writer ∧
    (RobustLock.prune_readers stat s).mutex_.unlocks = s.mutex_.unlocks ∧
    (RobustLock.prune_readers stat s).mutex_.shared_unlocks - s.mutex_.shared_unlocks =
      s.shared_owners.occupied - (RobustLock.prune_readers stat s).shared_owners.occupied ∧
    s.mutex_.shared_unlocks ≤ (RobustLock.prune_readers stat s).mutex_.shared_unlocks ∧
    (RobustLock.prune_readers stat s).shared_owners.occupied ≤ s.shared_owners.occupied ∧
    (RobustLock.prune_readers stat s).mutex_.readers =
      s.mutex_.readers -
        ((RobustLock.prune_readers stat s).mutex_.shared_unlocks - s.mutex_.shared_unlocks) := by
  rw [prune_readers_eq]
  have hocc := occupied_clear_dead stat s.shared_owners
  refine ⟨?_, rfl, by simp, ?_, rfl, rfl, rfl, ?_, ?_, ?_, ?_⟩
  · intro x hx
    obtain ⟨v, -, rfl⟩ := List.mem_map.mp hx
    by_cases hd : proc_dead stat v = true
    · simp [hd, proc_dead_zero]
    · have hd' : proc_dead stat v = false := by simpa using hd
      simp [hd']
  · intro i hi
    simp only [List.getD_eq_getElem?_getD, List.getElem?_map] at hi ⊢
    cases hget : s.shared_owners[i]? with
    | none => simp
    | some v =>
      rw [hget] at hi
      simp only [Option.getD_some] at hi
      simp [hi]
  · simp only
    omega
  · simp only
    omega
  · simp only
    omega
  · simp only
    omega

/-! ## Failed non-blocking acquires -/

theorem map_clear_dead_of_no_dead (stat : ProcFs) :
    ∀ set : LocklessSet, (∀ x ∈ set, proc_dead stat x = false) →
      set.map (fun v => if proc_dead stat v then 0 else v) = set := by
  intro set h
  have : ∀ x ∈ set, (fun v => if proc_dead stat v then 0 else v) x = id x := by
    intro x hx
    simp [h x hx]
  rw [List.map_congr_left this, List.map_id]

theorem filter_dead_of_no_dead (stat : ProcFs) (set : LocklessSet)
    (h : ∀ x ∈ set, proc_dead stat x = false) : set.filter (proc_dead stat) = [] :=
  List.filter_eq_nil_iff.mpr (fun x hx => by simp [h x hx])

/-- With no dead pid in the registry, `prune_readers` changes nothing and makes no call
on the mutex. -/
theorem prune_readers_of_no_dead (stat : ProcFs) (s : RobustLock)
    (h : ∀ x ∈ s.shared_owners, proc_dead stat x = false) :
    RobustLock.prune_readers stat s = s := by
  rw [prune_readers_eq, map_clear_dead_of_no_dead stat s.shared_owners h,
    filter_dead_of_no_dead stat s.shared_owners h]
  rfl

/-- C19 (an exclusive hold with no recorded owner is never recovered).  The mutex is
exclusively held, `exclusive_owner == 0` and the registry is empty.  Then, for every
caller and every answer of the liveness probe, `try_lock()` and `try_lock_sharable()`
return false and leave the lock exactly as it was (no release is made), and `lock()` and
`lock_sharable()` do not return, whatever fuel they are given. -/
theorem ownerless_exclusive_hold_is_stuck (stat : ProcFs) (pid : Nat) (s : RobustLock)
    (hw : s.mutex_.writer = true) (hr : s.mutex_.readers = 0)
    (howner : s.exclusive_owner = 0) (hreg : ∀ x ∈ s.shared_owners, x = 0) :
    RobustLock.try_lock stat pid s = (false, s) ∧
    (∀ fuel, RobustLock.try_lock_sharable stat pid fuel s = some (false, s)) ∧
    (∀ fuel, RobustLock.lock stat pid fuel s = none) ∧
    (∀ fuel, RobustLock.lock_sharable stat pid fuel s = none) := by
  have hheld : ¬ (s.mutex_.writer = false ∧ s.mutex_.readers = 0) := by simp [hw]
  have hnodead : ∀ x ∈ s.shared_owners, proc_dead stat x = false :=
    fun x hx => by rw [hreg x hx]; exact proc_dead_zero stat
  have hrec : RobustLock.recover_exclusive stat s = (false, s) := by
    simp [RobustLock.recover_exclusive, howner, prune_readers_of_no_dead stat s hnodead]
  have hrecs : RobustLock.recover_sharable stat s = s := by
    simp [RobustLock.recover_sharable, howner]
  refine ⟨?_, fun fuel => ?_, fun fuel => ?_, fun fuel => ?_⟩
  · rw [try_lock_of_held stat pid s hheld, hrec, if_neg hheld]
  · rw [try_lock_sharable_of_writer stat pid fuel s hw, hrecs]
    simp [hw]
  · induction fuel with
    | zero => rfl
    | succ fuel ih => rw [lock_succ_of_held stat pid fuel s hheld, hrec, ih]; rfl
  · induction fuel with
    | zero => rfl
    | succ fuel ih => rw [lock_sharable_succ_of_writer stat pid fuel s hw, hrecs, ih]; rfl

/-- C19 on a concrete lock: the mutex is exclusively held with nobody recorded (every
other process being dead), and pid 200 tries both non-blocking acquires. -/
theorem ownerless_exclusive_hold_is_stuck_witness :
    RobustLock.try_lock (fun p => if p = 200 then ⟨0, 0⟩ else ⟨-1, ENOENT⟩) 200
      ⟨⟨true, 0, 0, 0⟩, 0, [0, 0]⟩ = (false, ⟨⟨true, 0, 0, 0⟩, 0, [0, 0]⟩) ∧
    (∀ fuel, RobustLock.try_lock_sharable (fun p => if p = 200 then ⟨0, 0⟩ else ⟨-1, ENOENT⟩)
      200 fuel ⟨⟨true, 0, 0, 0⟩, 0, [0, 0]⟩ = some (false, ⟨⟨true, 0, 0, 0⟩, 0, [0, 0]⟩)) ∧
    (∀ fuel, RobustLock.lock (fun p => if p = 200 then ⟨0, 0⟩ else ⟨-1, ENOENT⟩) 200 fuel
      ⟨⟨true, 0, 0, 0⟩, 0, [0, 0]⟩ = none) ∧
    (∀ fuel, RobustLock.lock_sharable (fun p => if p = 200 then ⟨0, 0⟩ else ⟨-1, ENOENT⟩)
      200 fuel ⟨⟨true, 0, 0, 0⟩, 0, [0, 0]⟩ = none) :=
  ownerless_exclusive_hold_is_stuck (fun p => if p = 200 then ⟨0, 0⟩ else ⟨-1, ENOENT⟩) 200
    ⟨⟨true, 0, 0, 0⟩, 0, [0, 0]⟩ rfl rfl rfl (by decide)

theorem no_dead_of_map_clear_dead (stat : ProcFs) :
    ∀ set : LocklessSet, set.map (fun v => if proc_dead stat v then 0 else v) = set →
      ∀ x ∈ set, proc_dead stat x = false := by
  intro set
  induction set with
  | nil => intro _ x hx; simp at hx
  | cons y ys ih =>
    intro h x hx
    simp only [List.map_cons, List.cons.injEq] at h
    rcases List.mem_cons.mp hx with rfl | hmem
    · by_cases hd : proc_dead stat x = true
      · have h0 : x = 0 := by simpa [hd] using h.1.symm
        rw [h0]; exact proc_dead_zero stat
      · simpa using hd
    · exact ih h.2 x hmem

/-- C20 (a failed `try_lock()` can still change the lock).  There is a reachable state,
with no exclusive owner and the mutex held in shared mode by the live reader 5 and the
dead reader 6, in which `try_lock()` by pid 9 returns false and yet has cleared the slot
of pid 6 and given back one shared hold.  And in any state, a `try_lock()` that returns
false has left the lock unchanged exactly when, at the call, either a live process is
recorded as exclusive owner, or no owner is recorded and no registered reader is dead;
in particular only when no registered reader is dead or the recorded owner is alive. -/
theorem failed_try_lock_may_prune :
    (∃ (stat : ProcFs) (s : RobustLock), Reachable 2 stat s ∧
      s.exclusive_owner = 0 ∧ s.mutex_.writer = false ∧ s.mutex_.readers = 2 ∧
      s.shared_owners = [5, 6] ∧ proc_dead stat 5 = false ∧ proc_dead stat 6 = true ∧
      RobustLock.try_lock stat 9 s = (false, ⟨⟨false, 1, 0, 1⟩, 0, [5, 0]⟩)) ∧
    (∀ (stat : ProcFs) (pid : Nat) (s : RobustLock),
      (RobustLock.try_lock stat pid s).1 = false →
      (((RobustLock.try_lock stat pid s).2 = s ↔
          (s.exclusive_owner ≠ 0 ∧ proc_dead stat s.exclusive_owner = false) ∨
          (s.exclusive_owner = 0 ∧ ∀ x ∈ s.shared_owners, proc_dead stat x = false)) ∧
        ((RobustLock.try_lock stat pid s).2 = s →
          (∀ x ∈ s.shared_owners, proc_dead stat x = false) ∨
          (s.exclusive_owner ≠ 0 ∧ proc_dead stat s.exclusive_owner = false)))) := by
  refine ⟨⟨_, _, reachable_live_and_dead_reader, rfl, rfl, rfl, rfl, by decide, by decide,
    by decide⟩, ?_⟩
  intro stat pid s hfalse
  have hheld : ¬ (s.mutex_.writer = false ∧ s.mutex_.readers = 0) := by
    intro hfree
    rw [try_lock_of_free stat pid s hfree.1 hfree.2] at hfalse
    exact Bool.noConfusion hfalse
  have hcall : (RobustLock.try_lock stat pid s).2 = (RobustLock.recover_exclusive stat s).2 := by
    rw [try_lock_of_held stat pid s hheld] at hfalse ⊢
    by_cases hfree' : (RobustLock.recover_exclusive stat s).2.mutex_.writer = false ∧
        (RobustLock.recover_exclusive stat s).2.mutex_.readers = 0
    · rw [if_pos hfree'] at hfalse
      exact Bool.noConfusion hfalse
    · rw [if_neg hfree']
  have hiff : (RobustLock.recover_exclusive stat s).2 = s ↔
      (s.exclusive_owner ≠ 0 ∧ proc_dead stat s.exclusive_owner = false) ∨
      (s.exclusive_owner = 0 ∧ ∀ x ∈ s.shared_owners, proc_dead stat x = false) := by
    by_cases ho : s.exclusive_owner = 0
    · have hrec : (RobustLock.recover_exclusive stat s).2 = RobustLock.prune_readers stat s := by
        simp [RobustLock.recover_exclusive, ho]
      rw [hrec]
      constructor
      · intro h
        right
        refine ⟨ho, no_dead_of_map_clear_dead stat s.shared_owners ?_⟩
        have := congrArg RobustLock.shared_owners h
        rw [prune_readers_eq] at this
        exact this
      · rintro (⟨hne, -⟩ | ⟨-, hnodead⟩)
        · exact absurd ho hne
        · exact prune_readers_of_no_dead stat s hnodead
    · by_cases hd : proc_dead stat s.exclusive_owner = true
      · have hrec : (RobustLock.recover_exclusive stat s).2.exclusive_owner = 0 := by
          simp [RobustLock.recover_exclusive, ho, hd, compare_exchange_strong]
        constructor
        · intro h
          rw [h] at hrec
          exact absurd hrec ho
        · rintro (⟨-, hlive⟩ | ⟨h0, -⟩)
          · rw [hd] at hlive
            exact Bool.noConfusion hlive
          · exact absurd h0 ho
      · have hd' : proc_dead stat s.exclusive_owner = false := by simpa using hd
        have hrec : (RobustLock.recover_exclusive stat s).2 = s := by
          simp [RobustLock.recover_exclusive, ho, hd']
        rw [hrec]
        exact ⟨fun _ => Or.inl ⟨ho, hd'⟩, fun _ => rfl⟩
  rw [hcall]
  refine ⟨hiff, fun h => ?_⟩
  rcases hiff.mp h with h1 | h2
  · exact Or.inr h1
  · exact Or.inl h2.2

/-- C20 on a second concrete lock, not the one of the statement: readers 5 (alive) and 6
(dead) with a third, empty slot; `try_lock()` by pid 9 fails and the state it leaves
differs from the one it found, an owner being neither recorded nor alive. -/
theorem failed_try_lock_may_prune_witness :
    (RobustLock.try_lock (fun p => if p = 6 then ⟨-1, ENOENT⟩ else ⟨0, 0⟩) 9
        ⟨⟨false, 2, 0, 0⟩, 0, [5, 6, 0]⟩).2 ≠ ⟨⟨false, 2, 0, 0⟩, 0, [5, 6, 0]⟩ :=
  fun h => by
    have := ((failed_try_lock_may_prune.2 (fun p => if p = 6 then ⟨-1, ENOENT⟩ else ⟨0, 0⟩) 9
      ⟨⟨false, 2, 0, 0⟩, 0, [5, 6, 0]⟩ (by decide)).1.mp h)
    revert this
    decide

/-! ## The recovery race -/

theorem alone_succ (stat : ProcFs) (n : Nat) (mem : RobustLock) (p : Racer) :
    Race.alone stat (n + 1) mem p =
      Race.alone stat n (Racer.step stat mem p).1 (Racer.step stat mem p).2 := by
  simp [Race.alone, Race.run, Race.step, List.replicate_succ]

theorem alone_add (stat : ProcFs) (b : Nat) :
    ∀ (a : Nat) (mem : RobustLock) (p : Racer) (mem' : RobustLock) (p' : Racer),
      Race.alone stat a mem p = ⟨mem', [p']⟩ →
      Race.alone stat (a + b) mem p = Race.alone stat b mem' p' := by
  intro a
  induction a with
  | zero =>
    intro mem p mem' p' h
    simp only [Race.alone, List.replicate_zero, Race.run, Race.mk.injEq, List.cons.injEq,
      and_true] at h
    obtain ⟨h1, h2⟩ := h
    subst h1 h2
    simp
  | succ a ih =>
    intro mem p mem' p' h
    rw [alone_succ] at h
    rw [show a + 1 + b = (a + b) + 1 by omega, alone_succ]
    exact ih _ _ mem' p' h

theorem reaches_refl (stat : ProcFs) (method : Method) (pid : Nat) (mem : RobustLock)
    (pc : Pc) : Racer.reaches stat method pid mem pc mem pc :=
  fun w r => ⟨0, w, r, rfl⟩

theorem reaches_trans (stat : ProcFs) (method : Method) (pid : Nat)
    (mem₁ mem₂ mem₃ : RobustLock) (pc₁ pc₂ pc₃ : Pc)
    (h₁ : Racer.reaches stat method pid mem₁ pc₁ mem₂ pc₂)
    (h₂ : Racer.reaches stat method pid mem₂ pc₂ mem₃ pc₃) :
    Racer.reaches stat method pid mem₁ pc₁ mem₃ pc₃ := by
  intro w r
  obtain ⟨a, w', r', ha⟩ := h₁ w r
  obtain ⟨b, w'', r'', hb⟩ := h₂ w' r'
  exact ⟨a + b, w'', r'', by rw [alone_add stat b a _ _ _ _ ha, hb]⟩

theorem reaches_step (stat : ProcFs) (method : Method) (pid : Nat)
    (mem mem' : RobustLock) (pc pc' : Pc)
    (h : ∀ w r, ∃ w' r', Racer.step stat mem ⟨method, pid, pc, w, r⟩ =
      (mem', ⟨method, pid, pc', w', r'⟩)) :
    Racer.reaches stat method pid mem pc mem' pc' := by
  intro w r
  obtain ⟨w', r', hstep⟩ := h w r
  exact ⟨1, w', r', by rw [alone_succ, hstep]; rfl⟩

theorem remove_length (elem : Nat) :
    ∀ set : LocklessSet, (LocklessSet.remove elem set).2.length = set.length := by
  intro set
  induction set with
  | nil => rfl
  | cons x xs ih =>
    by_cases hx : x = elem
    · simp [LocklessSet.remove, hx]
    · simp [LocklessSet.remove, hx, ih]

theorem prune_slot_length (stat : ProcFs) (i : Nat) (s : RobustLock) :
    (RobustLock.prune_slot stat i s).shared_owners.length = s.shared_owners.length := by
  unfold RobustLock.prune_slot
  by_cases hv : s.shared_owners.getD i 0 = 0
  · simp only [hv, if_true]
  · by_cases hd : proc_dead stat (s.shared_owners.getD i 0) = true
    · have hlen := remove_length (s.shared_owners.getD i 0) s.shared_owners
      simp only [hv, if_false, hd, if_true]
      rcases hres : LocklessSet.remove (s.shared_owners.getD i 0) s.shared_owners with ⟨b, set⟩
      rw [hres] at hlen
      cases b <;> exact hlen
    · simp only [hv, if_false, hd, Bool.false_eq_true]

theorem prune_from_length (stat : ProcFs) :
    ∀ (n i : Nat) (s : RobustLock),
      (RobustLock.prune_from stat i n s).shared_owners.length = s.shared_owners.length := by
  intro n
  induction n with
  | zero => intro i s; rfl
  | succ n ih =>
    intro i s
    simp only [RobustLock.prune_from]
    rw [ih, prune_slot_length]

/-- Alone, the steps of one pass of the range-for of `prune_readers` do what
`prune_slot` does. -/
theorem alone_prune_slot (stat : ProcFs) (method : Method) (pid i : Nat) (mem : RobustLock)
    (hi : i < mem.shared_owners.length) :
    Racer.reaches stat method pid mem (.prune_load i)
      (RobustLock.prune_slot stat i mem) (.prune_load (i + 1)) := by
  by_cases hv : mem.shared_owners.getD i 0 = 0
  · have hslot : RobustLock.prune_slot stat i mem = mem := by
      simp only [RobustLock.prune_slot, hv, if_true]
    rw [hslot]
    exact reaches_step stat method pid mem mem _ _
      (fun w r => ⟨w, r, by simp only [Racer.step, hi, if_true, hv]⟩)
  · by_cases hd : proc_dead stat (mem.shared_owners.getD i 0) = true
    · have hload : Racer.reaches stat method pid mem (.prune_load i) mem
          (.prune_remove (mem.shared_owners.getD i 0) i) :=
        reaches_step stat method pid mem mem _ _
          (fun w r => ⟨w, r, by simp only [Racer.step, hi, if_true, hv, if_false, hd]⟩)
      refine reaches_trans stat method pid _ _ _ _ _ _ hload ?_
      rcases hres : LocklessSet.remove (mem.shared_owners.getD i 0) mem.shared_owners
        with ⟨b, set⟩
      cases b with
      | true =>
        have hslot : RobustLock.prune_slot stat i mem =
            { mem with shared_owners := set, mutex_ := mem.mutex_.unlock_sharable } := by
          simp only [RobustLock.prune_slot, hv, if_false, hd, if_true, hres]
        rw [hslot]
        have hremove : Racer.reaches stat method pid mem
            (.prune_remove (mem.shared_owners.getD i 0) i)
            { mem with shared_owners := set } (.prune_unlock i) :=
          reaches_step stat method pid _ _ _ _
            (fun w r => ⟨w, r, by simp only [Racer.step, hres]⟩)
        refine reaches_trans stat method pid _ _ _ _ _ _ hremove ?_
        exact reaches_step stat method pid _ _ _ _
          (fun w r => ⟨w, r + 1, by simp only [Racer.step]⟩)
      | false =>
        have hslot : RobustLock.prune_slot stat i mem = { mem with shared_owners := set } := by
          simp only [RobustLock.prune_slot, hv, if_false, hd, if_true, hres]
        rw [hslot]
        exact reaches_step stat method pid _ _ _ _
          (fun w r => ⟨w, r, by simp only [Racer.step, hres]⟩)
    · have hslot : RobustLock.prune_slot stat i mem = mem := by
        simp only [RobustLock.prune_slot, hv, if_false, hd, Bool.false_eq_true]
      rw [hslot]
      exact reaches_step stat method pid mem mem _ _
        (fun w r => ⟨w, r, by
          simp only [Racer.step, hi, if_true, hv, if_false, hd, Bool.false_eq_true]⟩)

theorem alone_prune_from (stat : ProcFs) (method : Method) (pid : Nat) :
    ∀ (n i : Nat) (mem : RobustLock), i + n = mem.shared_owners.length →
      Racer.reaches stat method pid mem (.prune_load i)
        (RobustLock.prune_from stat i n mem) (.prune_load (i + n)) := by
  intro n
  induction n with
  | zero => intro i mem _; exact reaches_refl stat method pid mem _
  | succ n ih =>
    intro i mem h
    have hslot := alone_prune_slot stat method pid i mem (by omega)
    have hrest := ih (i + 1) (RobustLock.prune_slot stat i mem)
      (by rw [prune_slot_length]; omega)
    rw [show i + 1 + n = i + (n + 1) by omega] at hrest
    exact reaches_trans stat method pid _ _ _ _ _ _ hslot hrest

/-- Alone, the steps of `prune_readers` do what the sequential `prune_readers` does, and
leave the process where its recovery block ends. -/
theorem alone_prune_readers (stat : ProcFs) (method : Method) (pid : Nat) (mem : RobustLock) :
    Racer.reaches stat method pid mem (.prune_load 0)
      (RobustLock.prune_readers stat mem) method.after_recovery := by
  have hloop := alone_prune_from stat method pid mem.shared_owners.length 0 mem (by omega)
  rw [Nat.zero_add] at hloop
  refine reaches_trans stat method pid _ _ _ _ _ _ hloop ?_
  have hlen := prune_from_length stat mem.shared_owners.length 0 mem
  refine reaches_step stat method pid _ _ _ _ (fun w r => ⟨w, r, ?_⟩)
  simp [Racer.step, RobustLock.prune_readers, hlen]

/-- Alone, the steps of the recovery block of `lock` / `try_lock` do what
`recover_exclusive` does. -/
theorem alone_recover_exclusive (stat : ProcFs) (method : Method) (pid : Nat)
    (mem : RobustLock) (hex : method.exclusive = true) :
    Racer.reaches stat method pid mem .check_owner (RobustLock.recover_exclusive stat mem).2
      (if (RobustLock.recover_exclusive stat mem).1 then method.after_force_unlock
        else method.after_recovery) := by
  by_cases ho : mem.exclusive_owner = 0
  · have hrec : RobustLock.recover_exclusive stat mem =
        (false, RobustLock.prune_readers stat mem) := by
      simp [RobustLock.recover_exclusive, ho]
    rw [hrec]
    have hcheck : Racer.reaches stat method pid mem .check_owner mem (.prune_load 0) :=
      reaches_step stat method pid mem mem _ _
        (fun w r => ⟨w, r, by simp [Racer.step, ho, hex]⟩)
    exact reaches_trans stat method pid _ _ _ _ _ _ hcheck
      (alone_prune_readers stat method pid mem)
  · have hcheck : Racer.reaches stat method pid mem .check_owner mem .load_owner :=
      reaches_step stat method pid mem mem _ _
        (fun w r => ⟨w, r, by simp [Racer.step, ho]⟩)
    refine reaches_trans stat method pid _ _ _ _ _ _ hcheck ?_
    by_cases hd : proc_dead stat mem.exclusive_owner = true
    · have hrec : RobustLock.recover_exclusive stat mem =
          (true, { mem with exclusive_owner := 0, mutex_ := mem.mutex_.unlock }) := by
        simp [RobustLock.recover_exclusive, ho, hd, compare_exchange_strong]
      rw [hrec]
      have hload : Racer.reaches stat method pid mem .load_owner mem
          (.cas mem.exclusive_owner) :=
        reaches_step stat method pid mem mem _ _
          (fun w r => ⟨w, r, by simp [Racer.step, hd]⟩)
      have hcas : Racer.reaches stat method pid mem (.cas mem.exclusive_owner)
          { mem with exclusive_owner := 0 } .force_unlock :=
        reaches_step stat method pid _ _ _ _
          (fun w r => ⟨w + 1, r, by simp [Racer.step, compare_exchange_strong, hex]⟩)
      have hunlock : Racer.reaches stat method pid { mem with exclusive_owner := 0 }
          .force_unlock { mem with exclusive_owner := 0, mutex_ := mem.mutex_.unlock }
          method.after_force_unlock :=
        reaches_step stat method pid _ _ _ _
          (fun w r => ⟨w, r + 1, by simp [Racer.step]⟩)
      exact reaches_trans stat method pid _ _ _ _ _ _ hload
        (reaches_trans stat method pid _ _ _ _ _ _ hcas hunlock)
    · have hrec : RobustLock.recover_exclusive stat mem = (false, mem) := by
        simp [RobustLock.recover_exclusive, ho, hd]
      rw [hrec]
      exact reaches_step stat method pid mem mem _ _
        (fun w r => ⟨w, r, by simp [Racer.step, hd]⟩)

/-- Alone, the steps of the recovery block of `lock_sharable` / `try_lock_sharable` do
what `recover_sharable` does. -/
theorem alone_recover_sharable (stat : ProcFs) (method : Method) (pid : Nat)
    (mem : RobustLock) (hex : method.exclusive = false) :
    Racer.reaches stat method pid mem .check_owner (RobustLock.recover_sharable stat mem)
      method.after_recovery := by
  have hafter : method.after_force_unlock = method.after_recovery := by
    cases method <;> first | rfl | simp [Method.exclusive] at hex
  by_cases ho : mem.exclusive_owner = 0
  · have hrec : RobustLock.recover_sharable stat mem = mem := by
      simp [RobustLock.recover_sharable, ho]
    rw [hrec]
    exact reaches_step stat method pid mem mem _ _
      (fun w r => ⟨w, r, by simp [Racer.step, ho, hex]⟩)
  · have hcheck : Racer.reaches stat method pid mem .check_owner mem .load_owner :=
      reaches_step stat method pid mem mem _ _
        (fun w r => ⟨w, r, by simp [Racer.step, ho]⟩)
    refine reaches_trans stat method pid _ _ _ _ _ _ hcheck ?_
    by_cases hd : proc_dead stat mem.exclusive_owner = true
    · have hrec : RobustLock.recover_sharable stat mem =
          { mem with exclusive_owner := 0, mutex_ := mem.mutex_.unlock } := by
        simp [RobustLock.recover_sharable, ho, hd, compare_exchange_strong]
      rw [hrec]
      have hload : Racer.reaches stat method pid mem .load_owner mem
          (.cas mem.exclusive_owner) :=
        reaches_step stat method pid mem mem _ _
          (fun w r => ⟨w, r, by simp [Racer.step, hd]⟩)
      have hcas : Racer.reaches stat method pid mem (.cas mem.exclusive_owner)
          { mem with exclusive_owner := 0 } .store_zero :=
        reaches_step stat method pid _ _ _ _
          (fun w r => ⟨w + 1, r, by simp [Racer.step, compare_exchange_strong, hex]⟩)
      have hstore : Racer.reaches stat method pid { mem with exclusive_owner := 0 }
          .store_zero { mem with exclusive_owner := 0 } .force_unlock :=
        reaches_step stat method pid _ _ _ _
          (fun w r => ⟨w, r, by simp [Racer.step]⟩)
      have hunlock : Racer.reaches stat method pid { mem with exclusive_owner := 0 }
          .force_unlock { mem with exclusive_owner := 0, mutex_ := mem.mutex_.unlock }
          method.after_recovery :=
        reaches_step stat method pid _ _ _ _
          (fun w r => ⟨w, r + 1, by simp [Racer.step, hafter]⟩)
      exact reaches_trans stat method pid _ _ _ _ _ _ hload
        (reaches_trans stat method pid _ _ _ _ _ _ hcas
          (reaches_trans stat method pid _ _ _ _ _ _ hstore hunlock))
    · have hrec : RobustLock.recover_sharable stat mem = mem := by
        simp [RobustLock.recover_sharable, ho, hd]
      rw [hrec]
      exact reaches_step stat method pid mem mem _ _
        (fun w r => ⟨w, r, by simp [Racer.step, hd]⟩)

/-- Alone, a successful exclusive try-acquire and the store of the pid. -/
theorem alone_acquire_exclusive (stat : ProcFs) (method : Method) (pid : Nat)
    (mem : RobustLock) (final : Bool) (hex : method.exclusive = true)
    (hw : mem.mutex_.writer = false) (hr : mem.mutex_.readers = 0) :
    Racer.reaches stat method pid mem (.acquire final)
      ⟨{ mem.mutex_ with writer := true }, pid, mem.shared_owners⟩ (.returned true) := by
  have htry : Racer.reaches stat method pid mem (.acquire final)
      { mem with mutex_ := { mem.mutex_ with writer := true } } .record_owner :=
    reaches_step stat method pid _ _ _ _
      (fun w r => ⟨w, r, by simp [Racer.step, hex, PthreadReadWriteLock.try_lock, hw, hr]⟩)
  exact reaches_trans stat method pid _ _ _ _ _ _ htry
    (reaches_step stat method pid _ _ _ _ (fun w r => ⟨w, r, by simp [Racer.step]⟩))

/-- Alone, a failed try-acquire, exclusive or shared. -/
theorem alone_acquire_fails (stat : ProcFs) (method : Method) (pid : Nat)
    (mem : RobustLock) (final : Bool)
    (h : if method.exclusive then ¬ (mem.mutex_.writer = false ∧ mem.mutex_.readers = 0)
      else mem.mutex_.writer = true) :
    Racer.reaches stat method pid mem (.acquire final) mem
      (if final then .returned false else .check_owner) := by
  refine reaches_step stat method pid _ _ _ _ (fun w r => ⟨w, r, ?_⟩)
  cases hex : method.exclusive with
  | true =>
    rw [hex] at h
    simp only [if_true] at h
    simp [Racer.step, hex, PthreadReadWriteLock.try_lock, h]
  | false =>
    rw [hex] at h
    simp only [Bool.false_eq_true, if_false] at h
    simp [Racer.step, hex, PthreadReadWriteLock.try_lock_sharable, h]

/-- Alone, `try_lock()` cut into steps does what the sequential `try_lock()` does. -/
theorem alone_try_lock (stat : ProcFs) (pid : Nat) (mem : RobustLock) :
    Racer.reaches stat .try_lock pid mem (.acquire false)
      (RobustLock.try_lock stat pid mem).2 (.returned (RobustLock.try_lock stat pid mem).1) := by
  by_cases hfree : mem.mutex_.writer = false ∧ mem.mutex_.readers = 0
  · rw [try_lock_of_free stat pid mem hfree.1 hfree.2]
    exact alone_acquire_exclusive stat .try_lock pid mem false rfl hfree.1 hfree.2
  · rw [try_lock_of_held stat pid mem hfree]
    have hfail := alone_acquire_fails stat .try_lock pid mem false
      (by simpa [Method.exclusive] using hfree)
    have hrec := alone_recover_exclusive stat .try_lock pid mem rfl
    have hpc : (if (RobustLock.recover_exclusive stat mem).1 then Method.try_lock.after_force_unlock
        else Method.try_lock.after_recovery) = .acquire true := by
      cases (RobustLock.recover_exclusive stat mem).1 <;> rfl
    rw [hpc] at hrec
    refine reaches_trans stat _ pid _ _ _ _ _ _ hfail
      (reaches_trans stat _ pid _ _ _ _ _ _ hrec ?_)
    by_cases hfree' : (RobustLock.recover_exclusive stat mem).2.mutex_.writer = false ∧
        (RobustLock.recover_exclusive stat mem).2.mutex_.readers = 0
    · rw [if_pos hfree']
      exact alone_acquire_exclusive stat .try_lock pid _ true rfl hfree'.1 hfree'.2
    · rw [if_neg hfree']
      exact alone_acquire_fails stat .try_lock pid _ true (by simpa [Method.exclusive] using hfree')

/-- Alone, `lock()` cut into steps does what the sequential `lock()` does, whenever the
latter returns. -/
theorem alone_lock (stat : ProcFs) (pid : Nat) :
    ∀ (fuel : Nat) (mem : RobustLock) (r : LockRun), RobustLock.lock stat pid fuel mem = some r →
      Racer.reaches stat .lock pid mem (.acquire false) r.state (.returned true) := by
  intro fuel
  induction fuel with
  | zero => intro mem r h; simp [RobustLock.lock] at h
  | succ fuel ih =>
    intro mem r h
    by_cases hfree : mem.mutex_.writer = false ∧ mem.mutex_.readers = 0
    · rw [lock_succ_of_free stat pid fuel mem hfree.1 hfree.2] at h
      cases h
      exact alone_acquire_exclusive stat .lock pid mem false rfl hfree.1 hfree.2
    · rw [lock_succ_of_held stat pid fuel mem hfree, Option.map_eq_some'] at h
      obtain ⟨r', hr', rfl⟩ := h
      have hfail := alone_acquire_fails stat .lock pid mem false
        (by simpa [Method.exclusive] using hfree)
      have hrec := alone_recover_exclusive stat .lock pid mem rfl
      have hback : Racer.reaches stat .lock pid (RobustLock.recover_exclusive stat mem).2
          (if (RobustLock.recover_exclusive stat mem).1 then Method.lock.after_force_unlock
            else Method.lock.after_recovery) (RobustLock.recover_exclusive stat mem).2
          (.acquire false) := by
        cases (RobustLock.recover_exclusive stat mem).1 with
        | true => exact reaches_refl stat .lock pid _ _
        | false =>
          exact reaches_step stat .lock pid _ _ _ _
            (fun w r => ⟨w, r, by simp [Racer.step, Method.after_recovery]⟩)
      exact reaches_trans stat _ pid _ _ _ _ _ _ hfail
        (reaches_trans stat _ pid _ _ _ _ _ _ hrec
          (reaches_trans stat _ pid _ _ _ _ _ _ hback (ih _ r' hr')))

/-- Alone, the turns of the registration loop do what `insert_loop` does. -/
theorem alone_register (stat : ProcFs) (method : Method) (pid : Nat) :
    ∀ (fuel : Nat) (mem : RobustLock) (set : LocklessSet),
      insert_loop pid fuel mem.shared_owners = some set →
      Racer.reaches stat method pid mem .register { mem with shared_owners := set }
        (.returned true) := by
  intro fuel
  induction fuel with
  | zero => intro mem set h; simp [insert_loop] at h
  | succ fuel ih =>
    intro mem set h
    rcases hres : LocklessSet.insert pid mem.shared_owners with ⟨b, set₁⟩
    cases b with
    | true =>
      simp only [insert_loop, hres, Option.some.injEq] at h
      subst h
      exact reaches_step stat method pid _ _ _ _
        (fun w r => ⟨w, r, by simp only [Racer.step, hres]⟩)
    | false =>
      simp only [insert_loop, hres] at h
      have hturn : Racer.reaches stat method pid mem .register
          { mem with shared_owners := set₁ } .register :=
        reaches_step stat method pid _ _ _ _
          (fun w r => ⟨w, r, by simp only [Racer.step, hres]⟩)
      exact reaches_trans stat method pid _ _ _ _ _ _ hturn
        (ih { mem with shared_owners := set₁ } set h)

/-- Alone, a successful shared try-acquire followed by the registration. -/
theorem alone_acquire_sharable (stat : ProcFs) (method : Method) (pid fuel : Nat)
    (mem : RobustLock) (final : Bool) (set : LocklessSet) (hex : method.exclusive = false)
    (hw : mem.mutex_.writer = false)
    (hset : insert_loop pid fuel mem.shared_owners = some set) :
    Racer.reaches stat method pid mem (.acquire final)
      ⟨{ mem.mutex_ with readers := mem.mutex_.readers + 1 }, mem.exclusive_owner, set⟩
      (.returned true) := by
  have htry : Racer.reaches stat method pid mem (.acquire final)
      { mem with mutex_ := { mem.mutex_ with readers := mem.mutex_.readers + 1 } } .register :=
    reaches_step stat method pid _ _ _ _
      (fun w r => ⟨w, r, by simp [Racer.step, hex, PthreadReadWriteLock.try_lock_sharable, hw]⟩)
  exact reaches_trans stat method pid _ _ _ _ _ _ htry
    (alone_register stat method pid fuel
      { mem with mutex_ := { mem.mutex_ with readers := mem.mutex_.readers + 1 } } set hset)

/-- Alone, `try_lock_sharable()` cut into steps does what the sequential
`try_lock_sharable()` does, whenever the latter returns. -/
theorem alone_try_lock_sharable (stat : ProcFs) (pid fuel : Nat) (mem mem' : RobustLock)
    (b : Bool) (h : RobustLock.try_lock_sharable stat pid fuel mem = some (b, mem')) :
    Racer.reaches stat .try_lock_sharable pid mem (.acquire false) mem' (.returned b) := by
  cases hw : mem.mutex_.writer with
  | false =>
    rw [try_lock_sharable_of_not_writer stat pid fuel mem hw, Option.map_eq_some'] at h
    obtain ⟨set, hset, heq⟩ := h
    rw [← (Prod.mk.inj heq).1, ← (Prod.mk.inj heq).2]
    exact alone_acquire_sharable stat _ pid fuel mem false set rfl hw hset
  | true =>
    rw [try_lock_sharable_of_writer stat pid fuel mem hw] at h
    have hfail := alone_acquire_fails stat .try_lock_sharable pid mem false
      (by simpa [Method.exclusive] using hw)
    have hrec := alone_recover_sharable stat .try_lock_sharable pid mem rfl
    refine reaches_trans stat _ pid _ _ _ _ _ _ hfail
      (reaches_trans stat _ pid _ _ _ _ _ _ hrec ?_)
    by_cases hw' : (RobustLock.recover_sharable stat mem).mutex_.writer = false
    · rw [if_pos hw', Option.map_eq_some'] at h
      obtain ⟨set, hset, heq⟩ := h
      rw [← (Prod.mk.inj heq).1, ← (Prod.mk.inj heq).2]
      exact alone_acquire_sharable stat _ pid fuel _ true set rfl hw' hset
    · rw [if_neg hw'] at h
      rw [← (Prod.mk.inj (Option.some.inj h)).1, ← (Prod.mk.inj (Option.some.inj h)).2]
      exact alone_acquire_fails stat .try_lock_sharable pid _ true
        (by simpa [Method.exclusive] using hw')

/-- Alone, `lock_sharable()` cut into steps does what the sequential `lock_sharable()`
does, whenever the latter returns. -/
theorem alone_lock_sharable (stat : ProcFs) (pid : Nat) :
    ∀ (fuel : Nat) (mem : RobustLock) (r : LockRun),
      RobustLock.lock_sharable stat pid fuel mem = some r →
      Racer.reaches stat .lock_sharable pid mem (.acquire false) r.state (.returned true) := by
  intro fuel
  induction fuel with
  | zero => intro mem r h; simp [RobustLock.lock_sharable] at h
  | succ fuel ih =>
    intro mem r h
    cases hw : mem.mutex_.writer with
    | false =>
      rw [lock_sharable_succ_of_not_writer stat pid fuel mem hw, Option.map_eq_some'] at h
      obtain ⟨set, hset, rfl⟩ := h
      exact alone_acquire_sharable stat _ pid (fuel + 1) mem false set rfl hw hset
    | true =>
      rw [lock_sharable_succ_of_writer stat pid fuel mem hw, Option.map_eq_some'] at h
      obtain ⟨r', hr', rfl⟩ := h
      have hfail := alone_acquire_fails stat .lock_sharable pid mem false
        (by simpa [Method.exclusive] using hw)
      have hrec := alone_recover_sharable stat .lock_sharable pid mem rfl
      have hsleep : Racer.reaches stat .lock_sharable pid (RobustLock.recover_sharable stat mem)
          Method.lock_sharable.after_recovery (RobustLock.recover_sharable stat mem)
          (.acquire false) :=
        reaches_step stat .lock_sharable pid _ _ _ _
          (fun w r => ⟨w, r, by simp [Racer.step, Method.after_recovery]⟩)
      exact reaches_trans stat _ pid _ _ _ _ _ _ hfail
        (reaches_trans stat _ pid _ _ _ _ _ _ hrec
          (reaches_trans stat _ pid _ _ _ _ _ _ hsleep (ih _ r' hr')))

/-- The interleaved semantics and the sequential methods agree on a process that runs
alone: whenever a sequential call returns, the same call cut into steps reaches its
return, with the same result and the same lock. -/
theorem alone_agrees_with_sequential (stat : ProcFs) (pid fuel : Nat) (mem : RobustLock) :
    Racer.reaches stat .try_lock pid mem (.acquire false)
      (RobustLock.try_lock stat pid mem).2 (.returned (RobustLock.try_lock stat pid mem).1) ∧
    (∀ r, RobustLock.lock stat pid fuel mem = some r →
      Racer.reaches stat .lock pid mem (.acquire false) r.state (.returned true)) ∧
    (∀ b mem', RobustLock.try_lock_sharable stat pid fuel mem = some (b, mem') →
      Racer.reaches stat .try_lock_sharable pid mem (.acquire false) mem' (.returned b)) ∧
    (∀ r, RobustLock.lock_sharable stat pid fuel mem = some r →
      Racer.reaches stat .lock_sharable pid mem (.acquire false) r.state (.returned true)) :=
  ⟨alone_try_lock stat pid mem, fun r h => alone_lock stat pid fuel mem r h,
    fun b mem' h => alone_try_lock_sharable stat pid fuel mem mem' b h,
    fun r h => alone_lock_sharable stat pid fuel mem r h⟩

end shm.concurrent
